import Mathlib

/-!
Verification of the confidential x402 payment protocol implementation
(packages/confidential-x402-core and apps/hono-server/src/middleware.ts).

The development shallowly embeds the TypeScript source:

* the codec (`encodePaymentPayload` / `decodePaymentPayload`, utils/encoding.ts)
  is modelled down to the platform primitives it composes: a JSON value type,
  a printer for `JSON.stringify`, a fuel-based parser for `JSON.parse`, a
  UTF-8 encoder/decoder for `Buffer.from(..., "utf-8")`, and a base64
  encoder/decoder for Node's base64 conversions;
* the verifier (`verifyConfidentialPayment`, facilitator/verify.ts) and the
  settlement engine (`settleConfidentialPayment`, facilitator/settle.ts) are
  embedded as pure functions over an environment that records the outcomes of
  their external calls (ledger reads/writes, signature verification,
  decryption), with `none` standing for an uncaught JavaScript exception;
* the Hono middleware (`confidentialPaymentMiddleware`, middleware.ts) is a
  function from its request environment to a response together with a trace
  of the protocol events it performed (decode, verify, next, settle).

JavaScript-specific behaviour is modelled where the claims depend on it:
`x || y` treats the empty string as falsy, `BigInt(string)` accepts a
trimmed optional-sign decimal string and maps the empty string to 0, and
viem's `getAddress` canonicalises a 0x-prefixed 40-hex-digit address (its
canonical form is modelled by lower-casing, which induces the same equality).
Strings are Unicode scalar sequences (lone UTF-16 surrogates are out of
scope); JSON numbers are modelled as integers, which covers every value the
protocol transports (amounts and timestamps travel as decimal strings).
-/

namespace X402

/-! ## JSON values (the JavaScript data JSON.parse/JSON.stringify works on) -/

mutual
inductive Json where
  | null : Json
  | bool (b : Bool) : Json
  | num (n : Int) : Json
  | str (s : String) : Json
  | arr (xs : JsonList) : Json
  | obj (m : JsonObj) : Json
  deriving DecidableEq
inductive JsonList where
  | nil : JsonList
  | cons (hd : Json) (tl : JsonList) : JsonList
  deriving DecidableEq
inductive JsonObj where
  | nil : JsonObj
  | cons (k : String) (v : Json) (tl : JsonObj) : JsonObj
  deriving DecidableEq
end

/-- Object field lookup with JavaScript's last-wins semantics for duplicate
keys (`JSON.parse` keeps the last occurrence). -/
def objGet : JsonObj → String → Option Json
  | .nil, _ => none
  | .cons k v tl, key =>
    match objGet tl key with
    | some r => some r
    | none => if k = key then some v else none

/-! ## Decimal digits (the decimal rendering used by JSON.stringify and
BigInt.prototype.toString) -/

def digitChar (d : Nat) : Char :=
  match d with
  | 0 => '0' | 1 => '1' | 2 => '2' | 3 => '3' | 4 => '4'
  | 5 => '5' | 6 => '6' | 7 => '7' | 8 => '8' | _ => '9'

def hexDigitChar (d : Nat) : Char :=
  match d with
  | 0 => '0' | 1 => '1' | 2 => '2' | 3 => '3' | 4 => '4'
  | 5 => '5' | 6 => '6' | 7 => '7' | 8 => '8' | 9 => '9'
  | 10 => 'a' | 11 => 'b' | 12 => 'c' | 13 => 'd' | 14 => 'e' | _ => 'f'

/-- Decimal digits of `n`, most significant first, in front of `acc`;
`fuel`-driven so that the kernel can evaluate it (any `fuel > 0` with
`n < 10 ^ fuel` yields the digits). -/
def natDigitsAux : Nat → Nat → List Char → List Char
  | 0, _, acc => acc
  | fuel + 1, n, acc =>
    if n < 10 then digitChar n :: acc
    else natDigitsAux fuel (n / 10) (digitChar (n % 10) :: acc)

def natDigits (n : Nat) : List Char := natDigitsAux (n + 1) n []

/-- Decimal rendering of an integer (`String(n)` / `n.toString()` on a
JavaScript number or BigInt holding an integer). -/
def intDigits (n : Int) : List Char :=
  if n < 0 then '-' :: natDigits n.natAbs else natDigits n.natAbs

def bigintToString (n : Int) : String := String.mk (intDigits n)

/-! ## JSON printer (JSON.stringify) -/

/-- How `JSON.stringify` renders one character inside a string literal. -/
def escapeChar (c : Char) : List Char :=
  if c = '"' then ['\\', '"']
  else if c = '\\' then ['\\', '\\']
  else if c = Char.ofNat 8 then ['\\', 'b']
  else if c = Char.ofNat 9 then ['\\', 't']
  else if c = Char.ofNat 10 then ['\\', 'n']
  else if c = Char.ofNat 12 then ['\\', 'f']
  else if c = Char.ofNat 13 then ['\\', 'r']
  else if c.toNat < 32 then
    ['\\', 'u', '0', '0', hexDigitChar (c.toNat / 16), hexDigitChar (c.toNat % 16)]
  else [c]

def escapeList : List Char → List Char
  | [] => []
  | c :: cs => escapeChar c ++ escapeList cs

/-- A JSON string literal: quote, escaped content, quote. -/
def printString (s : String) : List Char := '"' :: escapeList s.data ++ ['"']

mutual
def printValue : Json → List Char
  | .bool false => ['f', 'a', 'l', 's', 'e']
  | .bool true => ['t', 'r', 'u', 'e']
  | .null => ['n', 'u', 'l', 'l']
  | .num n => intDigits n
  | .str s => printString s
  | .arr .nil => ['[', ']']
  | .arr (.cons x xs) => '[' :: printValue x ++ printElemsRest xs ++ [']']
  | .obj .nil => ['{', '}']
  | .obj (.cons k v ms) =>
    '{' :: printString k ++ ':' :: printValue v ++ printMembersRest ms ++ ['}']
def printElemsRest : JsonList → List Char
  | .nil => []
  | .cons x xs => ',' :: printValue x ++ printElemsRest xs
def printMembersRest : JsonObj → List Char
  | .nil => []
  | .cons k v ms => ',' :: printString k ++ ':' :: printValue v ++ printMembersRest ms
end

/-! ## JSON parser (JSON.parse) -/

def isWsChar (c : Char) : Bool :=
  c = ' ' || c = Char.ofNat 9 || c = Char.ofNat 10 || c = Char.ofNat 13

def skipWs : List Char → List Char
  | [] => []
  | c :: cs => if isWsChar c then skipWs cs else c :: cs

def isDigitChar (c : Char) : Bool := 48 ≤ c.toNat && c.toNat ≤ 57

def takeDigits : List Char → List Char × List Char
  | [] => ([], [])
  | c :: cs =>
    if isDigitChar c then
      let p := takeDigits cs
      (c :: p.1, p.2)
    else ([], c :: cs)

def natOfDigits (ds : List Char) : Nat :=
  List.foldl (fun a c => a * 10 + (c.toNat - 48)) 0 ds

def parseNat (cs : List Char) : Option (Nat × List Char) :=
  let p := takeDigits cs
  if p.1 = [] then none else some (natOfDigits p.1, p.2)

def hexVal (c : Char) : Option Nat :=
  if 48 ≤ c.toNat && c.toNat ≤ 57 then some (c.toNat - 48)
  else if 97 ≤ c.toNat && c.toNat ≤ 102 then some (c.toNat - 87)
  else if 65 ≤ c.toNat && c.toNat ≤ 70 then some (c.toNat - 55)
  else none

def hex4 (a b c d : Char) : Option Nat :=
  match hexVal a, hexVal b, hexVal c, hexVal d with
  | some x, some y, some z, some w => some (x * 4096 + y * 256 + z * 16 + w)
  | _, _, _, _ => none

/-- The replacement character U+FFFD, standing in for JavaScript string
content this model cannot represent (lone UTF-16 surrogates). -/
def replChar : Char := Char.ofNat 0xFFFD

def consFst (c : Char) (p : List Char × List Char) : List Char × List Char :=
  (c :: p.1, p.2)

def simpleEscape (e : Char) : Option Char :=
  if e = '"' then some '"'
  else if e = '\\' then some '\\'
  else if e = '/' then some '/'
  else if e = 'b' then some (Char.ofNat 8)
  else if e = 'f' then some (Char.ofNat 12)
  else if e = 'n' then some (Char.ofNat 10)
  else if e = 'r' then some (Char.ofNat 13)
  else if e = 't' then some (Char.ofNat 9)
  else none

/-- Body of a JSON string literal after the opening quote: returns the
decoded characters and the input after the closing quote. The fuel only
makes the recursion structural — it decreases once per decoded character
while each step consumes at least one input character, so `length + 1`
(what `parseStrBody` supplies) always suffices. A `\uXXXX` escape in the
surrogate range combines with a following low-surrogate escape; an unpaired
surrogate (representable in JavaScript, not as a Unicode scalar) is modelled
by the replacement character. -/
def parseStrBodyF : Nat → List Char → Option (List Char × List Char)
  | 0, _ => none
  | _ + 1, [] => none
  | f + 1, c :: cs =>
    if c = '"' then some ([], cs)
    else if c = '\\' then
      match cs with
      | 'u' :: h1 :: h2 :: h3 :: h4 :: rest =>
        (match hex4 h1 h2 h3 h4 with
         | none => none
         | some v =>
           if 0xD800 ≤ v ∧ v < 0xDC00 then
             match rest with
             | '\\' :: 'u' :: g1 :: g2 :: g3 :: g4 :: rest2 =>
               (match hex4 g1 g2 g3 g4 with
                | some v2 =>
                  if 0xDC00 ≤ v2 ∧ v2 < 0xE000 then
                    (parseStrBodyF f rest2).map
                      (consFst (Char.ofNat (0x10000 + (v - 0xD800) * 0x400 + (v2 - 0xDC00))))
                  else (parseStrBodyF f rest).map (consFst replChar)
                | none => (parseStrBodyF f rest).map (consFst replChar))
             | _ => (parseStrBodyF f rest).map (consFst replChar)
           else if 0xDC00 ≤ v ∧ v < 0xE000 then (parseStrBodyF f rest).map (consFst replChar)
           else (parseStrBodyF f rest).map (consFst (Char.ofNat v)))
      | e :: cs2 =>
        (match simpleEscape e with
         | some ch => (parseStrBodyF f cs2).map (consFst ch)
         | none => none)
      | [] => none
    else if c.toNat < 32 then none
    else (parseStrBodyF f cs).map (consFst c)

def parseStrBody (cs : List Char) : Option (List Char × List Char) :=
  parseStrBodyF (cs.length + 1) cs

mutual
/-- JSON value parser; the fuel bounds the recursion depth and per-object /
per-array member count, and every entry point supplies enough of it. -/
def parseValue : Nat → List Char → Option (Json × List Char)
  | 0, _ => none
  | fuel + 1, cs =>
    match skipWs cs with
    | [] => none
    | c :: cs1 =>
      if c = '"' then (parseStrBody cs1).map (fun p => (Json.str (String.mk p.1), p.2))
      else if c = '{' then
        match skipWs cs1 with
        | '}' :: r => some (Json.obj JsonObj.nil, r)
        | _ => (parseMembers fuel cs1).map (fun p => (Json.obj p.1, p.2))
      else if c = '[' then
        match skipWs cs1 with
        | ']' :: r => some (Json.arr JsonList.nil, r)
        | _ => (parseElems fuel cs1).map (fun p => (Json.arr p.1, p.2))
      else if c = 't' then
        match cs1 with
        | 'r' :: 'u' :: 'e' :: r => some (Json.bool true, r)
        | _ => none
      else if c = 'f' then
        match cs1 with
        | 'a' :: 'l' :: 's' :: 'e' :: r => some (Json.bool false, r)
        | _ => none
      else if c = 'n' then
        match cs1 with
        | 'u' :: 'l' :: 'l' :: r => some (Json.null, r)
        | _ => none
      else if c = '-' then (parseNat cs1).map (fun p => (Json.num (-(p.1 : Int)), p.2))
      else if isDigitChar c then (parseNat (c :: cs1)).map (fun p => (Json.num (p.1 : Int), p.2))
      else none

def parseElems : Nat → List Char → Option (JsonList × List Char)
  | 0, _ => none
  | fuel + 1, cs =>
    match parseValue fuel cs with
    | none => none
    | some (v, r) =>
      match skipWs r with
      | ',' :: r2 =>
        (match parseElems fuel r2 with
         | none => none
         | some (vs, r3) => some (JsonList.cons v vs, r3))
      | ']' :: r2 => some (JsonList.cons v JsonList.nil, r2)
      | _ => none

def parseMembers : Nat → List Char → Option (JsonObj × List Char)
  | 0, _ => none
  | fuel + 1, cs =>
    match skipWs cs with
    | '"' :: r =>
      (match parseStrBody r with
       | none => none
       | some (k, r1) =>
         match skipWs r1 with
         | ':' :: r2 =>
           (match parseValue fuel r2 with
            | none => none
            | some (v, r3) =>
              match skipWs r3 with
              | ',' :: r4 =>
                (match parseMembers fuel r4 with
                 | none => none
                 | some (kvs, r5) => some (JsonObj.cons (String.mk k) v kvs, r5))
              | '}' :: r4 => some (JsonObj.cons (String.mk k) v JsonObj.nil, r4)
              | _ => none)
         | _ => none)
    | _ => none
end

/-- `JSON.parse` on a character sequence: parse one value, then require only
trailing whitespace. -/
def jsonParseText (cs : List Char) : Option Json :=
  match parseValue (cs.length + 1) cs with
  | some (j, rest) => if skipWs rest = [] then some j else none
  | none => none

/-! ## UTF-8 (Buffer.from(text, "utf-8") and buffer.toString("utf-8")) -/

def utf8EncodeChar (c : Char) : List Nat :=
  let n := c.toNat
  if n < 0x80 then [n]
  else if n < 0x800 then [0xC0 + n / 64, 0x80 + n % 64]
  else if n < 0x10000 then [0xE0 + n / 4096, 0x80 + n / 64 % 64, 0x80 + n % 64]
  else [0xF0 + n / 262144, 0x80 + n / 4096 % 64, 0x80 + n / 64 % 64, 0x80 + n % 64]

def utf8Encode : List Char → List Nat
  | [] => []
  | c :: cs => utf8EncodeChar c ++ utf8Encode cs

def isCont (b : Nat) : Bool := 0x80 ≤ b && b < 0xC0

/-- Total UTF-8 decoder with Node's replacement-character behaviour on
malformed input (buffer.toString("utf-8") never throws). The fuel only makes
the recursion structural — it decreases once per produced character while
each step consumes at least one byte, so `length + 1` (what `utf8Decode`
supplies) always suffices. -/
def utf8DecodeF : Nat → List Nat → List Char
  | 0, _ => []
  | _ + 1, [] => []
  | f + 1, b :: bs =>
    if b < 0x80 then Char.ofNat b :: utf8DecodeF f bs
    else if b < 0xC0 then replChar :: utf8DecodeF f bs
    else if b < 0xE0 then
      match bs with
      | b2 :: bs2 =>
        if isCont b2 then
          let v := (b - 0xC0) * 64 + (b2 - 0x80)
          (if v < 0x80 then replChar else Char.ofNat v) :: utf8DecodeF f bs2
        else replChar :: utf8DecodeF f bs
      | [] => [replChar]
    else if b < 0xF0 then
      match bs with
      | b2 :: b3 :: bs3 =>
        if isCont b2 && isCont b3 then
          let v := (b - 0xE0) * 4096 + (b2 - 0x80) * 64 + (b3 - 0x80)
          (if v < 0x800 ∨ (0xD800 ≤ v ∧ v < 0xE000) then replChar else Char.ofNat v)
            :: utf8DecodeF f bs3
        else replChar :: utf8DecodeF f bs
      | _ => [replChar]
    else if b < 0xF8 then
      match bs with
      | b2 :: b3 :: b4 :: bs4 =>
        if isCont b2 && isCont b3 && isCont b4 then
          let v := (b - 0xF0) * 262144 + (b2 - 0x80) * 4096 + (b3 - 0x80) * 64 + (b4 - 0x80)
          (if v < 0x10000 ∨ 0x110000 ≤ v then replChar else Char.ofNat v) :: utf8DecodeF f bs4
        else replChar :: utf8DecodeF f bs
      | _ => [replChar]
    else replChar :: utf8DecodeF f bs

def utf8Decode (bs : List Nat) : List Char := utf8DecodeF (bs.length + 1) bs

/-! ## Base64 (Node Buffer base64 conversions) -/

def b64Chars : List Char :=
  "ABCDEFGHIJKLMNOPQRSTUVWXYZabcdefghijklmnopqrstuvwxyz0123456789+/".data

def b64Char (n : Nat) : Char := b64Chars.getD n 'A'

def b64Val (c : Char) : Option Nat := b64Chars.indexOf? c

def b64Encode : List Nat → List Char
  | [] => []
  | [b1] => [b64Char (b1 / 4), b64Char (b1 % 4 * 16), '=', '=']
  | [b1, b2] => [b64Char (b1 / 4), b64Char (b1 % 4 * 16 + b2 / 16), b64Char (b2 % 16 * 4), '=']
  | b1 :: b2 :: b3 :: rest =>
    b64Char (b1 / 4) :: b64Char (b1 % 4 * 16 + b2 / 16) ::
      b64Char (b2 % 16 * 4 + b3 / 64) :: b64Char (b3 % 64) :: b64Encode rest

/-- Reassemble bytes from 6-bit groups; a trailing group of two or three
sextets contributes one or two bytes (Node's lenient decoder). -/
def b64DecodeCore : List Nat → List Nat
  | v1 :: v2 :: v3 :: v4 :: rest =>
    (v1 * 4 + v2 / 16) :: (v2 % 16 * 16 + v3 / 4) :: (v3 % 4 * 64 + v4) :: b64DecodeCore rest
  | [v1, v2] => [v1 * 4 + v2 / 16]
  | [v1, v2, v3] => [v1 * 4 + v2 / 16, v2 % 16 * 16 + v3 / 4]
  | _ => []

/-- Node's base64 decoder ignores every character outside the alphabet
(including the `=` padding) and never throws. -/
def b64Decode (cs : List Char) : List Nat :=
  b64DecodeCore (cs.filterMap b64Val)

/-! ## The data model (packages/confidential-x402-types) -/

structure ExtraInfo where
  name : String
  version : String
  deriving DecidableEq

structure PaymentRequirements where
  scheme : String
  network : String
  maxAmountRequired : String
  resource : String
  description : String
  mimeType : String
  payTo : String
  maxTimeoutSeconds : Int
  asset : String
  extra : Option ExtraInfo
  deriving DecidableEq

structure Authorization where
  «from» : String
  «to» : String
  encryptedValueHandle : String
  inputProof : String
  validAfter : String
  validBefore : String
  nonce : String
  deriving DecidableEq

structure AuthPayload where
  signature : String
  authorization : Authorization
  deriving DecidableEq

structure PaymentPayload where
  x402Version : Int
  scheme : String
  network : String
  payload : AuthPayload
  deriving DecidableEq

structure VerifyResponse where
  isValid : Bool
  invalidReason : Option String
  payer : String
  deriving DecidableEq

structure SettleResponse where
  success : Bool
  transaction : String
  network : String
  payer : String
  errorReason : Option String
  transferredAmount : Option String
  deriving DecidableEq

/-! ## The codec (utils/encoding.ts) -/

/-- The JSON value `JSON.stringify` sees for an `Authorization` object, with
the key order of the object literal in createPaymentHeader.ts. -/
def authorizationJson (a : Authorization) : Json :=
  Json.obj
    (JsonObj.cons "from" (Json.str a.«from»)
    (JsonObj.cons "to" (Json.str a.«to»)
    (JsonObj.cons "encryptedValueHandle" (Json.str a.encryptedValueHandle)
    (JsonObj.cons "inputProof" (Json.str a.inputProof)
    (JsonObj.cons "validAfter" (Json.str a.validAfter)
    (JsonObj.cons "validBefore" (Json.str a.validBefore)
    (JsonObj.cons "nonce" (Json.str a.nonce)
    JsonObj.nil)))))))

def authPayloadJson (ap : AuthPayload) : Json :=
  Json.obj
    (JsonObj.cons "signature" (Json.str ap.signature)
    (JsonObj.cons "authorization" (authorizationJson ap.authorization)
    JsonObj.nil))

/-- The JSON value `JSON.stringify` sees for a `PaymentPayload` object, with
the key order of the object literal in createPaymentHeader.ts. -/
def paymentPayloadJson (p : PaymentPayload) : Json :=
  Json.obj
    (JsonObj.cons "x402Version" (Json.num p.x402Version)
    (JsonObj.cons "scheme" (Json.str p.scheme)
    (JsonObj.cons "network" (Json.str p.network)
    (JsonObj.cons "payload" (authPayloadJson p.payload)
    JsonObj.nil))))

/-- `Buffer.from(JSON.stringify(j), "utf-8").toString("base64")`. -/
def encodeJsonValue (j : Json) : String :=
  String.mk (b64Encode (utf8Encode (printValue j)))

/-- encodePaymentPayload (utils/encoding.ts): JSON.stringify then base64. -/
def encodePaymentPayload (p : PaymentPayload) : String :=
  encodeJsonValue (paymentPayloadJson p)

/-- decodePaymentPayload (utils/encoding.ts): base64-decode then JSON.parse,
followed by an unchecked type cast — so the result is whatever JSON value the
text held (`none` models the thrown error when the text is not valid JSON). -/
def decodePaymentPayload (s : String) : Option Json :=
  jsonParseText (utf8Decode (b64Decode s.data))

/-- The structure the unchecked cast `as PaymentPayload` promises: extraction
succeeds exactly when every required field is present with the right type. -/
def payloadOfJson (j : Json) : Option PaymentPayload :=
  match j with
  | Json.obj m =>
    match objGet m "x402Version", objGet m "scheme", objGet m "network",
        objGet m "payload" with
    | some (Json.num ver), some (Json.str scheme), some (Json.str network),
        some (Json.obj mp) =>
      (match objGet mp "signature", objGet mp "authorization" with
       | some (Json.str signature), some (Json.obj ma) =>
         (match objGet ma "from", objGet ma "to", objGet ma "encryptedValueHandle",
             objGet ma "inputProof", objGet ma "validAfter", objGet ma "validBefore",
             objGet ma "nonce" with
          | some (Json.str f), some (Json.str t), some (Json.str h), some (Json.str ip),
              some (Json.str va), some (Json.str vb), some (Json.str nc) =>
            some ⟨ver, scheme, network, ⟨signature, ⟨f, t, h, ip, va, vb, nc⟩⟩⟩
          | _, _, _, _, _, _, _ => none)
       | _, _ => none)
    | _, _, _, _ => none
  | _ => none

/-! ## JavaScript platform helpers used by the protocol core -/

def listPrefixOf : List Char → List Char → Bool
  | [], _ => true
  | _ :: _, [] => false
  | a :: as, b :: bs => a = b && listPrefixOf as bs

def containsSeq (needle : List Char) : List Char → Bool
  | [] => needle.isEmpty
  | c :: tl => listPrefixOf needle (c :: tl) || containsSeq needle tl

/-- `haystack.includes(needle)` on JavaScript strings. -/
def jsIncludes (s sub : String) : Bool := containsSeq sub.data s.data

/-- JavaScript `a || b` on an optional string: `undefined` and the empty
string are falsy. -/
def jsOrStr (a : Option String) (b : String) : String :=
  match a with
  | some s => if s = "" then b else s
  | none => b

/-- JavaScript `a || b` where both operands are optional strings (the result
can still be `undefined`). -/
def jsOrOpt (a b : Option String) : Option String :=
  match a with
  | some s => if s = "" then b else some s
  | none => b

/-- `BigInt(string)`: whitespace is trimmed, the empty string is 0, and an
optional-sign decimal string converts exactly; anything else throws
(`none`). Non-decimal prefixed forms (0x/0o/0b) do not occur in the
protocol's fields and are out of the modelled scope. -/
def jsBigInt? (s : String) : Option Int :=
  let t := (skipWs s.data).reverse
  let u := (skipWs t).reverse
  match u with
  | [] => some 0
  | '-' :: ds => if ds ≠ [] ∧ ds.all isDigitChar then some (-(natOfDigits ds : Int)) else none
  | '+' :: ds => if ds ≠ [] ∧ ds.all isDigitChar then some (natOfDigits ds : Int) else none
  | ds => if ds.all isDigitChar then some (natOfDigits ds : Int) else none

def isHexDigitChar (c : Char) : Bool := (hexVal c).isSome

def toLowerHexChar (c : Char) : Char :=
  if 65 ≤ c.toNat ∧ c.toNat ≤ 70 then Char.ofNat (c.toNat + 32) else c

/-- viem's `getAddress`: requires a `0x`-prefixed 40-hex-digit string (any
case) and returns the canonical (checksummed) form, which is a deterministic
function of the lower-cased address: the model uses the lower-cased form as
the canonical representative, which induces the same equality. Invalid input
throws (`none`). -/
def getAddress? (s : String) : Option String :=
  match s.data with
  | '0' :: 'x' :: rest =>
    if rest.length = 40 ∧ rest.all isHexDigitChar then
      some (String.mk ('0' :: 'x' :: rest.map toLowerHexChar))
    else none
  | _ => none

/-! ## Network table (utils/network.ts) -/

/-- getChainId (utils/network.ts): the `CHAIN_IDS` record holds only
`sepolia`; an unknown network throws (`none`). -/
def getChainId (network : String) : Option Nat :=
  if network = "sepolia" then some 11155111 else none

/-! ## The verifier (facilitator/verify.ts) -/

/-- The EIP-712 domain the verifier reconstructs. -/
structure TypedDomain where
  name : String
  version : String
  chainId : Nat
  verifyingContract : String
  deriving DecidableEq

/-- The `TransferWithAuthorization` message the verifier signs over. -/
structure TypedMessage where
  «from» : String
  «to» : String
  encryptedValueHandle : String
  validAfter : Int
  validBefore : Int
  nonce : String
  deriving DecidableEq

/-- Everything viem's `verifyTypedData` receives: expected signer address,
domain, message and signature. -/
structure SigCheckInput where
  address : String
  domain : TypedDomain
  message : TypedMessage
  signature : String
  deriving DecidableEq

/-- Outcomes of the two external calls the verifier makes, plus the clock it
reads. `Except.error` is the call throwing. -/
structure VerifyEnv where
  now : Int
  nonceUsed : String → String → Except Unit Bool
  sigValid : SigCheckInput → Except Unit Bool

def rejectWith (reason payer : String) : VerifyResponse :=
  { isValid := false, invalidReason := some reason, payer := payer }

/-- Whether an external boolean call completed and answered `true`; both a
`false` answer and a thrown error fall in the other branch. -/
def isOkTrue {e : Type} (r : Except e Bool) : Bool :=
  match r with
  | Except.ok true => true
  | _ => false

/-- verifyConfidentialPayment (facilitator/verify.ts). `none` models an
uncaught exception (a BigInt conversion failure on the timestamps, an
unknown network in `getChainId`, or `getAddress` on a malformed address);
every check failure returns a structured rejection. -/
def verifyConfidentialPayment (payload : PaymentPayload)
    (requirements : PaymentRequirements) (env : VerifyEnv) : Option VerifyResponse :=
  let authorization := payload.payload.authorization
  let signature := payload.payload.signature
  if payload.scheme ≠ "exact-confidential" then
    some (rejectWith "unsupported_scheme" authorization.«from»)
  else if payload.network ≠ requirements.network then
    some (rejectWith "invalid_network" authorization.«from»)
  else
    match jsBigInt? authorization.validAfter with
    | none => none
    | some va =>
      if va > env.now then some (rejectWith "authorization_not_yet_valid" authorization.«from»)
      else
        match jsBigInt? authorization.validBefore with
        | none => none
        | some vb =>
          if vb < env.now + 6 then some (rejectWith "authorization_expired" authorization.«from»)
          else if isOkTrue (env.nonceUsed authorization.«from» authorization.nonce) then
            some (rejectWith "nonce_already_used" authorization.«from»)
          else
            -- a query failure is logged and verification continues
            match getChainId requirements.network with
            | none => none
            | some chainId =>
              let domain : TypedDomain :=
                { name := jsOrStr (requirements.extra.map (·.name)) "ConfidentialUSD",
                  version := jsOrStr (requirements.extra.map (·.version)) "1",
                  chainId := chainId,
                  verifyingContract := requirements.asset }
              let message : TypedMessage :=
                { «from» := authorization.«from», «to» := authorization.«to»,
                  encryptedValueHandle := authorization.encryptedValueHandle,
                  validAfter := va, validBefore := vb, nonce := authorization.nonce }
              if ¬isOkTrue (env.sigValid ⟨authorization.«from», domain, message, signature⟩) then
                some (rejectWith "invalid_signature" authorization.«from»)
              else
                match getAddress? authorization.«to», getAddress? requirements.payTo with
                | some canonTo, some canonPayTo =>
                  if canonTo ≠ canonPayTo then
                    some (rejectWith "recipient_mismatch" authorization.«from»)
                  else some { isValid := true, invalidReason := none,
                              payer := authorization.«from» }
                | _, _ => none

/-! ## The settlement engine (facilitator/settle.ts) -/

/-- What `waitForTransactionReceipt` plus `parseEventLogs` yield: the
receipt status and the `transferred` handles of the parsed
`AuthorizationUsed` events. -/
structure TxReceipt where
  statusSuccess : Bool
  transferredEvents : List String
  deriving DecidableEq

/-- Outcomes of the external calls the settlement engine makes.
`Except.error msg` is the call throwing with `error.message = msg`. -/
structure SettleEnv where
  hasAccount : Bool
  write : Except String String
  wait : String → Except String TxReceipt
  initClient : Except String Unit
  decrypt : String → Except String Int

/-- The `catch` block of settleConfidentialPayment: map known failure-message
substrings to taxonomy reasons, otherwise fall back to
`errorMessage || "unknown_error"`; the transaction reference is always the
empty string on this path. -/
def settleErrorResult (payload : PaymentPayload) (msg : String) : SettleResponse :=
  let authorization := payload.payload.authorization
  if jsIncludes msg "insufficient balance" then
    { success := false, transaction := "", network := payload.network,
      payer := authorization.«from», errorReason := some "insufficient_balance",
      transferredAmount := none }
  else if jsIncludes msg "already used" then
    { success := false, transaction := "", network := payload.network,
      payer := authorization.«from», errorReason := some "nonce_already_used",
      transferredAmount := none }
  else if jsIncludes msg "Invalid signature" then
    { success := false, transaction := "", network := payload.network,
      payer := authorization.«from», errorReason := some "invalid_signature",
      transferredAmount := none }
  else
    { success := false, transaction := "", network := payload.network,
      payer := authorization.«from»,
      errorReason := some (jsOrStr (some msg) "unknown_error"),
      transferredAmount := none }

/-- settleConfidentialPayment (facilitator/settle.ts). `none` models the
uncaught "Wallet client must have an account" throw; every other failure
surface is inside one of the two try/catch blocks. -/
def settleConfidentialPayment (payload : PaymentPayload)
    (requirements : PaymentRequirements) (env : SettleEnv) : Option SettleResponse :=
  let authorization := payload.payload.authorization
  if ¬env.hasAccount then none
  else some (
    match env.write with
    | Except.error msg => settleErrorResult payload msg
    | Except.ok hash =>
      match env.wait hash with
      | Except.error msg => settleErrorResult payload msg
      | Except.ok receipt =>
        if ¬receipt.statusSuccess then
          { success := false, transaction := hash, network := payload.network,
            payer := authorization.«from», errorReason := some "transaction_reverted",
            transferredAmount := none }
        else
          match receipt.transferredEvents with
          | [] =>
            -- no AuthorizationUsed event: succeeded but unverifiable
            { success := true, transaction := hash, network := payload.network,
              payer := authorization.«from», errorReason := none,
              transferredAmount := none }
          | handle :: _ =>
            match (do env.initClient; env.decrypt handle : Except String Int) with
            | Except.error _ =>
              -- decryption stack failed: succeeded but unverifiable
              { success := true, transaction := hash, network := payload.network,
                payer := authorization.«from», errorReason := none,
                transferredAmount := none }
            | Except.ok transferred =>
              if transferred = 0 then
                { success := false, transaction := hash, network := payload.network,
                  payer := authorization.«from»,
                  errorReason := some "insufficient_balance", transferredAmount := none }
              else
                match jsBigInt? requirements.maxAmountRequired with
                | none =>
                  -- BigInt throwing inside the decrypt try lands in its catch
                  { success := true, transaction := hash, network := payload.network,
                    payer := authorization.«from», errorReason := none,
                    transferredAmount := none }
                | some expectedAmount =>
                  if transferred < expectedAmount then
                    { success := false, transaction := hash, network := payload.network,
                      payer := authorization.«from»,
                      errorReason := some "partial_transfer",
                      transferredAmount := some (bigintToString transferred) }
                  else
                    { success := true, transaction := hash, network := payload.network,
                      payer := authorization.«from», errorReason := none,
                      transferredAmount := some (bigintToString transferred) })

/-! ## The protocol middleware (apps/hono-server/src/middleware.ts) -/

/-- Route patterns are turned into the anchored regex
`^pattern-with-*-replaced-by-.*$` and tested against the path. For the
glob-shaped patterns the middleware is configured with (literal characters
and `*`), that is exactly anchored glob matching, which this function
implements; regex metacharacters other than `*` are out of the modelled
scope. -/
def globMatchF : Nat → List Char → List Char → Bool
  | 0, _, _ => false
  | _ + 1, [], [] => true
  | _ + 1, [], _ :: _ => false
  | f + 1, '*' :: ps, s =>
    globMatchF f ps s ||
      (match s with
       | [] => false
       | _ :: tl => globMatchF f ('*' :: ps) tl)
  | _ + 1, _ :: _, [] => false
  | f + 1, p :: ps, c :: cs => p = c && globMatchF f ps cs

/-- The fuel only makes the recursion structural: every call decreases it
while the combined length of pattern and path decreases as well, so
`lengths + 1` always suffices. -/
def globMatch (ps s : List Char) : Bool :=
  globMatchF (ps.length + s.length + 1) ps s

def routePatternMatches (pattern path : String) : Bool :=
  globMatch pattern.data path.data

structure ErrorMessages where
  paymentRequired : Option String
  invalidPayment : Option String
  verificationFailed : Option String
  settlementFailed : Option String
  deriving DecidableEq

structure RouteCfg where
  description : Option String
  mimeType : Option String
  maxTimeoutSeconds : Option Int
  errorMessages : Option ErrorMessages
  deriving DecidableEq

structure RouteConfig where
  price : String
  network : String
  config : Option RouteCfg
  deriving DecidableEq

structure MiddlewareOptions where
  payTo : String
  contractAddress : String
  routes : List (String × RouteConfig)
  deriving DecidableEq

/-- JavaScript `a || b` on an optional number: `undefined` and `0` are
falsy. -/
def jsOrInt (a : Option Int) (b : Int) : Int :=
  match a with
  | some n => if n = 0 then b else n
  | none => b

/-- The payment-requirements object literal built per request
(middleware.ts lines 58-72). -/
def buildPaymentRequirements (options : MiddlewareOptions) (routeConfig : RouteConfig)
    (url : String) : PaymentRequirements :=
  { scheme := "exact-confidential",
    network := routeConfig.network,
    maxAmountRequired := routeConfig.price,
    resource := url,
    description := jsOrStr (routeConfig.config.bind (·.description)) "Access to resource",
    mimeType := jsOrStr (routeConfig.config.bind (·.mimeType)) "application/json",
    payTo := options.payTo,
    maxTimeoutSeconds := jsOrInt (routeConfig.config.bind (·.maxTimeoutSeconds)) 300,
    asset := options.contractAddress,
    extra := some ⟨"ConfidentialUSD", "1"⟩ }

/-- The downstream (business-logic) response produced by `next()`. -/
structure DownstreamResponse where
  status : Int
  body : String
  headers : List (String × String)
  deriving DecidableEq

/-- Outcomes of the awaited calls the middleware makes. `env.verify` models
the awaited `verifyConfidentialPayment` (`none` = it threw, which the
middleware does not catch); `env.settle` models the awaited
`settleConfidentialPayment` inside its try/catch (`Except.error msg` = it
threw with message `msg`). -/
structure MwEnv where
  verify : PaymentPayload → PaymentRequirements → Option VerifyResponse
  settle : PaymentPayload → PaymentRequirements → Except String SettleResponse
  next : DownstreamResponse

/-- Protocol events of one request trace, in order of occurrence. -/
inductive MwEvent where
  | decoded (p : PaymentPayload) : MwEvent
  | verified (p : PaymentPayload) (v : VerifyResponse) : MwEvent
  | calledNext : MwEvent
  | settled (p : PaymentPayload) : MwEvent
  deriving DecidableEq

/-- A structured 402 body: `error`, `accepts: [requirements]`, optionally
`x402Version: 1` (only the no-payment-header challenge carries it) and
optionally `payer` (only the verification rejection carries it). -/
structure ChallengeBody where
  error : Option String
  accepts : PaymentRequirements
  withVersion : Bool
  payer : Option String
  deriving DecidableEq

inductive MwBody where
  | fromNext (b : String) : MwBody
  | challenge (c : ChallengeBody) : MwBody
  deriving DecidableEq

structure MwResponse where
  status : Int
  body : MwBody
  headers : List (String × String)
  deriving DecidableEq

/-- How the middleware ends: pass straight to `next()` with no payment
processing, respond itself, or throw (uncaught, surfaced by the framework
as a 500). -/
inductive MwResult where
  | passNext : MwResult
  | respond (r : MwResponse) : MwResult
  | thrown : MwResult
  deriving DecidableEq

/-- `headers.set(name, value)`. -/
def setHeader (hs : List (String × String)) (name value : String) :
    List (String × String) :=
  match hs with
  | [] => [(name, value)]
  | (n, v) :: tl => if n = name then (name, value) :: tl else (n, v) :: setHeader tl name value

def cfgMsg (routeConfig : RouteConfig) (f : ErrorMessages → Option String) :
    Option String :=
  routeConfig.config.bind fun c => c.errorMessages.bind f

/-- confidentialPaymentMiddleware (middleware.ts), as a function from the
request (its path and url, the X-PAYMENT header) and the environment to the
response and the trace of protocol events. A decoded value that is not a
structurally complete PaymentPayload makes the verifier's field accesses
throw; that path is modelled as `thrown`. -/
def confidentialPaymentMiddleware (options : MiddlewareOptions) (env : MwEnv)
    (url path : String) (paymentHeader : Option String) : MwResult × List MwEvent :=
  match options.routes.find? (fun e => routePatternMatches e.1 path) with
  | none => (MwResult.passNext, [])
  | some (_, routeConfig) =>
    let paymentRequirements := buildPaymentRequirements options routeConfig url
    match paymentHeader with
    | none =>
      (MwResult.respond
        { status := 402,
          body := MwBody.challenge
            { error := jsOrOpt (cfgMsg routeConfig (·.paymentRequired)) (some "Payment required"),
              accepts := paymentRequirements, withVersion := true, payer := none },
          headers := [] }, [])
    | some payment =>
      match (decodePaymentPayload payment).bind payloadOfJson with
      | none =>
        match decodePaymentPayload payment with
        | none =>
          (MwResult.respond
            { status := 402,
              body := MwBody.challenge
                { error := jsOrOpt (cfgMsg routeConfig (·.invalidPayment))
                    (some "Invalid payment header"),
                  accepts := paymentRequirements, withVersion := false, payer := none },
              headers := [] }, [])
        | some _ => (MwResult.thrown, [])
      | some decodedPayment =>
        match env.verify decodedPayment paymentRequirements with
        | none => (MwResult.thrown, [MwEvent.decoded decodedPayment])
        | some verification =>
          if verification.isValid = false then
            (MwResult.respond
              { status := 402,
                body := MwBody.challenge
                  { error := jsOrOpt (cfgMsg routeConfig (·.verificationFailed))
                      verification.invalidReason,
                    accepts := paymentRequirements, withVersion := false,
                    payer := some verification.payer },
                headers := [] },
             [MwEvent.decoded decodedPayment, MwEvent.verified decodedPayment verification])
          else
            let res := env.next
            if res.status ≥ 400 then
              (MwResult.respond { status := res.status, body := MwBody.fromNext res.body,
                                  headers := res.headers },
               [MwEvent.decoded decodedPayment,
                MwEvent.verified decodedPayment verification, MwEvent.calledNext])
            else
              let trace := [MwEvent.decoded decodedPayment,
                MwEvent.verified decodedPayment verification, MwEvent.calledNext,
                MwEvent.settled decodedPayment]
              match env.settle decodedPayment paymentRequirements with
              | Except.ok settlement =>
                if settlement.success then
                  (MwResult.respond
                    { status := res.status, body := MwBody.fromNext res.body,
                      headers := setHeader res.headers "X-PAYMENT-RESPONSE"
                        (encodePaymentPayload decodedPayment) }, trace)
                else
                  -- `throw new Error(settlement.errorReason)` lands in the catch
                  (MwResult.respond
                    { status := 402,
                      body := MwBody.challenge
                        { error := jsOrOpt (cfgMsg routeConfig (·.settlementFailed))
                            (some (settlement.errorReason.getD "")),
                          accepts := paymentRequirements, withVersion := false, payer := none },
                      headers := [] }, trace)
              | Except.error msg =>
                (MwResult.respond
                  { status := 402,
                    body := MwBody.challenge
                      { error := jsOrOpt (cfgMsg routeConfig (·.settlementFailed)) (some msg),
                        accepts := paymentRequirements, withVersion := false, payer := none },
                    headers := [] }, trace)

/-! ## Fuel accounting for the JSON parser (used by the round-trip proof) -/

mutual
/-- Fuel sufficient for `parseValue` to parse the printed form of a value. -/
def jsonFuel : Json → Nat
  | .null => 1
  | .bool _ => 1
  | .num _ => 1
  | .str _ => 1
  | .arr xs => 1 + elemsFuel xs
  | .obj ms => 1 + membersFuel ms
def elemsFuel : JsonList → Nat
  | .nil => 0
  | .cons x xs => 1 + max (jsonFuel x) (elemsFuel xs)
def membersFuel : JsonObj → Nat
  | .nil => 0
  | .cons _ v ms => 1 + max (jsonFuel v) (membersFuel ms)
end

/-- The JSON value of a settlement receipt: the `SettleResponse` record as
the facilitator serialises it (`res.json(settlement)`), fields in
construction order, optional fields present only when set. This is the
spec-side referent for "an encoded token decodable into the settlement
metadata"; it is compared against what the middleware actually puts in the
header. -/
def specSettlementReceiptJson (s : SettleResponse) : Json :=
  Json.obj
    (JsonObj.cons "success" (Json.bool s.success)
    (JsonObj.cons "transaction" (Json.str s.transaction)
    (JsonObj.cons "network" (Json.str s.network)
    (JsonObj.cons "payer" (Json.str s.payer)
    (match s.errorReason, s.transferredAmount with
     | some r, some t =>
       JsonObj.cons "errorReason" (Json.str r)
         (JsonObj.cons "transferredAmount" (Json.str t) JsonObj.nil)
     | some r, none => JsonObj.cons "errorReason" (Json.str r) JsonObj.nil
     | none, some t => JsonObj.cons "transferredAmount" (Json.str t) JsonObj.nil
     | none, none => JsonObj.nil)))))

/-! ## Theorems: the verifier -/

/-- Claim C5: verifyConfidentialPayment performs its checks in order —
scheme (unsupported_scheme), network (invalid_network), temporal window
(authorization_not_yet_valid when validAfter > now, authorization_expired
when validBefore < now + 6, the fixed safety margin), nonce replay
(nonce_already_used), signature with expected signer authorization.from
(invalid_signature on a false answer or a thrown verification), and
recipient equality in canonical form (recipient_mismatch) — short-circuiting
on the first failing check; in particular a payload whose authorization.to
differs canonically from requirements.payTo is rejected with
recipient_mismatch even when its signature is valid, and a payload passing
every check is accepted. -/
theorem verify_checks_in_order (payload : PaymentPayload)
    (requirements : PaymentRequirements) (env : VerifyEnv) :
    (payload.scheme ≠ "exact-confidential" →
      verifyConfidentialPayment payload requirements env =
        some (rejectWith "unsupported_scheme" payload.payload.authorization.«from»)) ∧
    (payload.scheme = "exact-confidential" →
      payload.network ≠ requirements.network →
      verifyConfidentialPayment payload requirements env =
        some (rejectWith "invalid_network" payload.payload.authorization.«from»)) ∧
    (∀ va : Int, payload.scheme = "exact-confidential" →
      payload.network = requirements.network →
      jsBigInt? payload.payload.authorization.validAfter = some va →
      va > env.now →
      verifyConfidentialPayment payload requirements env =
        some (rejectWith "authorization_not_yet_valid" payload.payload.authorization.«from»)) ∧
    (∀ va vb : Int, payload.scheme = "exact-confidential" →
      payload.network = requirements.network →
      jsBigInt? payload.payload.authorization.validAfter = some va →
      va ≤ env.now →
      jsBigInt? payload.payload.authorization.validBefore = some vb →
      vb < env.now + 6 →
      verifyConfidentialPayment payload requirements env =
        some (rejectWith "authorization_expired" payload.payload.authorization.«from»)) ∧
    (∀ va vb : Int, payload.scheme = "exact-confidential" →
      payload.network = requirements.network →
      jsBigInt? payload.payload.authorization.validAfter = some va →
      va ≤ env.now →
      jsBigInt? payload.payload.authorization.validBefore = some vb →
      vb ≥ env.now + 6 →
      isOkTrue (env.nonceUsed payload.payload.authorization.«from»
        payload.payload.authorization.nonce) = true →
      verifyConfidentialPayment payload requirements env =
        some (rejectWith "nonce_already_used" payload.payload.authorization.«from»)) ∧
    (∀ va vb : Int, ∀ chainId : Nat, payload.scheme = "exact-confidential" →
      payload.network = requirements.network →
      jsBigInt? payload.payload.authorization.validAfter = some va →
      va ≤ env.now →
      jsBigInt? payload.payload.authorization.validBefore = some vb →
      vb ≥ env.now + 6 →
      isOkTrue (env.nonceUsed payload.payload.authorization.«from»
        payload.payload.authorization.nonce) = false →
      getChainId requirements.network = some chainId →
      isOkTrue (env.sigValid
        ⟨payload.payload.authorization.«from»,
         ⟨jsOrStr (requirements.extra.map (·.name)) "ConfidentialUSD",
          jsOrStr (requirements.extra.map (·.version)) "1",
          chainId, requirements.asset⟩,
         ⟨payload.payload.authorization.«from», payload.payload.authorization.«to»,
          payload.payload.authorization.encryptedValueHandle, va, vb,
          payload.payload.authorization.nonce⟩,
         payload.payload.signature⟩) = false →
      verifyConfidentialPayment payload requirements env =
        some (rejectWith "invalid_signature" payload.payload.authorization.«from»)) ∧
    (∀ va vb : Int, ∀ chainId : Nat, ∀ canonTo canonPayTo : String,
      payload.scheme = "exact-confidential" →
      payload.network = requirements.network →
      jsBigInt? payload.payload.authorization.validAfter = some va →
      va ≤ env.now →
      jsBigInt? payload.payload.authorization.validBefore = some vb →
      vb ≥ env.now + 6 →
      isOkTrue (env.nonceUsed payload.payload.authorization.«from»
        payload.payload.authorization.nonce) = false →
      getChainId requirements.network = some chainId →
      isOkTrue (env.sigValid
        ⟨payload.payload.authorization.«from»,
         ⟨jsOrStr (requirements.extra.map (·.name)) "ConfidentialUSD",
          jsOrStr (requirements.extra.map (·.version)) "1",
          chainId, requirements.asset⟩,
         ⟨payload.payload.authorization.«from», payload.payload.authorization.«to»,
          payload.payload.authorization.encryptedValueHandle, va, vb,
          payload.payload.authorization.nonce⟩,
         payload.payload.signature⟩) = true →
      getAddress? payload.payload.authorization.«to» = some canonTo →
      getAddress? requirements.payTo = some canonPayTo →
      (canonTo ≠ canonPayTo →
        verifyConfidentialPayment payload requirements env =
          some (rejectWith "recipient_mismatch" payload.payload.authorization.«from»)) ∧
      (canonTo = canonPayTo →
        verifyConfidentialPayment payload requirements env =
          some { isValid := true, invalidReason := none,
                 payer := payload.payload.authorization.«from» })) := by
  refine ⟨?_, ?_, ?_, ?_, ?_, ?_, ?_⟩
  · intro h
    simp [verifyConfidentialPayment, h]
  · intro h1 h2
    simp [verifyConfidentialPayment, h1, h2]
  · intro va h1 h2 h3 h4
    simp [verifyConfidentialPayment, h1, h2, h3, h4]
  · intro va vb h1 h2 h3 h4 h5 h6
    simp [verifyConfidentialPayment, h1, h2, h3, h5, h6, not_lt.mpr h4]
  · intro va vb h1 h2 h3 h4 h5 h6 h7
    simp [verifyConfidentialPayment, h1, h2, h3, h5, h7, not_lt.mpr h4, not_lt.mpr h6]
  · intro va vb chainId h1 h2 h3 h4 h5 h6 h7 h8 h9
    simp [verifyConfidentialPayment, h1, h2, h3, h5, h7, h8, h9,
      not_lt.mpr h4, not_lt.mpr h6]
  · intro va vb chainId canonTo canonPayTo h1 h2 h3 h4 h5 h6 h7 h8 h9 h10 h11
    constructor
    · intro hne
      simp [verifyConfidentialPayment, h1, h2, h3, h5, h7, h8, h9, h10, h11, hne,
        not_lt.mpr h4, not_lt.mpr h6]
    · intro heq
      simp [verifyConfidentialPayment, h1, h2, h3, h5, h7, h8, h9, h10, h11, heq,
        not_lt.mpr h4, not_lt.mpr h6]

/-- Witness for C5: a concrete payload whose signature is accepted but whose
recipient differs from requirements.payTo is rejected with
recipient_mismatch (spec scenario 5), via the ordering theorem. -/
theorem verify_checks_in_order_witness :
    verifyConfidentialPayment
      ⟨1, "exact-confidential", "sepolia",
        ⟨"0xsig", ⟨"0xf", "0xAAAAAAAAAAAAAAAAAAAAAAAAAAAAAAAAAAAAAAAA", "0xh", "0xp",
          "0", "1000", "0xn"⟩⟩⟩
      ⟨"exact-confidential", "sepolia", "100", "r", "d", "m",
        "0xbbbbbbbbbbbbbbbbbbbbbbbbbbbbbbbbbbbbbbbb", 300, "0xasset", none⟩
      ⟨10, fun _ _ => Except.ok false, fun _ => Except.ok true⟩ =
      some (rejectWith "recipient_mismatch" "0xf") := by
  exact
    (((verify_checks_in_order
      ⟨1, "exact-confidential", "sepolia",
        ⟨"0xsig", ⟨"0xf", "0xAAAAAAAAAAAAAAAAAAAAAAAAAAAAAAAAAAAAAAAA", "0xh", "0xp",
          "0", "1000", "0xn"⟩⟩⟩
      ⟨"exact-confidential", "sepolia", "100", "r", "d", "m",
        "0xbbbbbbbbbbbbbbbbbbbbbbbbbbbbbbbbbbbbbbbb", 300, "0xasset", none⟩
      ⟨10, fun _ _ => Except.ok false, fun _ => Except.ok true⟩).2.2.2.2.2.2
      0 1000 11155111
      "0xaaaaaaaaaaaaaaaaaaaaaaaaaaaaaaaaaaaaaaaa"
      "0xbbbbbbbbbbbbbbbbbbbbbbbbbbbbbbbbbbbbbbbb"
      (by decide) (by decide) (by decide) (by decide) (by decide) (by decide)
      (by decide) (by decide) (by decide) (by decide) (by decide)).1) (by decide)

/-- Claim C7: a thrown ledger query during the nonce-replay check does not
block verification — the remaining checks still run, and a payload passing
all of them is accepted despite the failed replay query. -/
theorem verify_fail_open_on_nonce_query_error (payload : PaymentPayload)
    (requirements : PaymentRequirements) (env : VerifyEnv) (va vb : Int)
    (chainId : Nat) (canonAddr : String)
    (h1 : payload.scheme = "exact-confidential")
    (h2 : payload.network = requirements.network)
    (h3 : jsBigInt? payload.payload.authorization.validAfter = some va)
    (h4 : va ≤ env.now)
    (h5 : jsBigInt? payload.payload.authorization.validBefore = some vb)
    (h6 : vb ≥ env.now + 6)
    (hq : env.nonceUsed payload.payload.authorization.«from»
      payload.payload.authorization.nonce = Except.error ())
    (h8 : getChainId requirements.network = some chainId)
    (h9 : isOkTrue (env.sigValid
      ⟨payload.payload.authorization.«from»,
       ⟨jsOrStr (requirements.extra.map (·.name)) "ConfidentialUSD",
        jsOrStr (requirements.extra.map (·.version)) "1",
        chainId, requirements.asset⟩,
       ⟨payload.payload.authorization.«from», payload.payload.authorization.«to»,
        payload.payload.authorization.encryptedValueHandle, va, vb,
        payload.payload.authorization.nonce⟩,
       payload.payload.signature⟩) = true)
    (h10 : getAddress? payload.payload.authorization.«to» = some canonAddr)
    (h11 : getAddress? requirements.payTo = some canonAddr) :
    verifyConfidentialPayment payload requirements env =
      some { isValid := true, invalidReason := none,
             payer := payload.payload.authorization.«from» } := by
  have hq' : isOkTrue (env.nonceUsed payload.payload.authorization.«from»
      payload.payload.authorization.nonce) = false := by rw [hq]; rfl
  simp [verifyConfidentialPayment, h1, h2, h3, h5, hq', h8, h9, h10, h11,
    not_lt.mpr h4, not_lt.mpr h6]

/-- Witness for C7: with every other check passing and the nonce query
throwing, the concrete payload is accepted. -/
theorem verify_fail_open_on_nonce_query_error_witness :
    verifyConfidentialPayment
      ⟨1, "exact-confidential", "sepolia",
        ⟨"0xsig", ⟨"0xf", "0xAAAAAAAAAAAAAAAAAAAAAAAAAAAAAAAAAAAAAAAA", "0xh", "0xp",
          "0", "1000", "0xn"⟩⟩⟩
      ⟨"exact-confidential", "sepolia", "100", "r", "d", "m",
        "0xaaaaaaaaaaaaaaaaaaaaaaaaaaaaaaaaaaaaaaaa", 300, "0xasset", none⟩
      ⟨10, fun _ _ => Except.error (), fun _ => Except.ok true⟩ =
      some { isValid := true, invalidReason := none, payer := "0xf" } := by
  exact verify_fail_open_on_nonce_query_error
    ⟨1, "exact-confidential", "sepolia",
      ⟨"0xsig", ⟨"0xf", "0xAAAAAAAAAAAAAAAAAAAAAAAAAAAAAAAAAAAAAAAA", "0xh", "0xp",
        "0", "1000", "0xn"⟩⟩⟩
    ⟨"exact-confidential", "sepolia", "100", "r", "d", "m",
      "0xaaaaaaaaaaaaaaaaaaaaaaaaaaaaaaaaaaaaaaaa", 300, "0xasset", none⟩
    ⟨10, fun _ _ => Except.error (), fun _ => Except.ok true⟩
    0 1000 11155111 "0xaaaaaaaaaaaaaaaaaaaaaaaaaaaaaaaaaaaaaaaa"
    (by decide) (by decide) (by decide) (by decide) (by decide) (by decide)
    rfl (by decide) (by decide) (by decide) (by decide)

/-- Counterexample to claim C6 as stated: two invocations with identical
payload, identical requirements and an unchanged ledger (the very same
oracle functions) return different VerifyResults, because the verifier also
reads the wall clock — at the later time the same authorization has
expired. -/
theorem verify_not_deterministic_in_declared_inputs :
    verifyConfidentialPayment
      ⟨1, "exact-confidential", "sepolia",
        ⟨"0xsig", ⟨"0xf", "0xAAAAAAAAAAAAAAAAAAAAAAAAAAAAAAAAAAAAAAAA", "0xh", "0xp",
          "0", "1000", "0xn"⟩⟩⟩
      ⟨"exact-confidential", "sepolia", "100", "r", "d", "m",
        "0xaaaaaaaaaaaaaaaaaaaaaaaaaaaaaaaaaaaaaaaa", 300, "0xasset", none⟩
      ⟨10, fun _ _ => Except.ok false, fun _ => Except.ok true⟩ ≠
    verifyConfidentialPayment
      ⟨1, "exact-confidential", "sepolia",
        ⟨"0xsig", ⟨"0xf", "0xAAAAAAAAAAAAAAAAAAAAAAAAAAAAAAAAAAAAAAAA", "0xh", "0xp",
          "0", "1000", "0xn"⟩⟩⟩
      ⟨"exact-confidential", "sepolia", "100", "r", "d", "m",
        "0xaaaaaaaaaaaaaaaaaaaaaaaaaaaaaaaaaaaaaaaa", 300, "0xasset", none⟩
      ⟨2000, fun _ _ => Except.ok false, fun _ => Except.ok true⟩ := by
  decide

/-- Claim C6 as amended: verification is deterministic in payload,
requirements, the observation time and the outcomes of its external calls —
two invocations with identical payload and requirements, the same clock
reading and pointwise-equal ledger and signature oracles return identical
VerifyResults. -/
theorem verify_deterministic (payload : PaymentPayload)
    (requirements : PaymentRequirements) (env1 env2 : VerifyEnv)
    (hnow : env1.now = env2.now)
    (hnonce : ∀ a n, env1.nonceUsed a n = env2.nonceUsed a n)
    (hsig : ∀ i, env1.sigValid i = env2.sigValid i) :
    verifyConfidentialPayment payload requirements env1 =
      verifyConfidentialPayment payload requirements env2 := by
  simp only [verifyConfidentialPayment, hnow, hnonce, hsig]

/-- Witness for the amended C6 at a concrete input. -/
theorem verify_deterministic_witness :
    verifyConfidentialPayment
      ⟨1, "exact-confidential", "sepolia",
        ⟨"0xsig", ⟨"0xf", "0xAAAAAAAAAAAAAAAAAAAAAAAAAAAAAAAAAAAAAAAA", "0xh", "0xp",
          "0", "1000", "0xn"⟩⟩⟩
      ⟨"exact-confidential", "sepolia", "100", "r", "d", "m",
        "0xaaaaaaaaaaaaaaaaaaaaaaaaaaaaaaaaaaaaaaaa", 300, "0xasset", none⟩
      ⟨10, fun _ _ => Except.ok false, fun _ => Except.ok true⟩ =
    verifyConfidentialPayment
      ⟨1, "exact-confidential", "sepolia",
        ⟨"0xsig", ⟨"0xf", "0xAAAAAAAAAAAAAAAAAAAAAAAAAAAAAAAAAAAAAAAA", "0xh", "0xp",
          "0", "1000", "0xn"⟩⟩⟩
      ⟨"exact-confidential", "sepolia", "100", "r", "d", "m",
        "0xaaaaaaaaaaaaaaaaaaaaaaaaaaaaaaaaaaaaaaaa", 300, "0xasset", none⟩
      ⟨10, fun _ _ => Except.ok false, fun _ => Except.ok true⟩ := by
  exact verify_deterministic
    ⟨1, "exact-confidential", "sepolia",
      ⟨"0xsig", ⟨"0xf", "0xAAAAAAAAAAAAAAAAAAAAAAAAAAAAAAAAAAAAAAAA", "0xh", "0xp",
        "0", "1000", "0xn"⟩⟩⟩
    ⟨"exact-confidential", "sepolia", "100", "r", "d", "m",
      "0xaaaaaaaaaaaaaaaaaaaaaaaaaaaaaaaaaaaaaaaa", 300, "0xasset", none⟩
    ⟨10, fun _ _ => Except.ok false, fun _ => Except.ok true⟩
    ⟨10, fun _ _ => Except.ok false, fun _ => Except.ok true⟩
    rfl (fun _ _ => rfl) (fun _ => rfl)

/-! ## Theorems: the settlement engine -/

/-- Claim C2: when the on-chain transfer confirms and the transferred-amount
commitment decrypts to `t`: `t = 0` gives `success: false` with
insufficient_balance; `0 < t < maxAmountRequired` gives `success: false`
with partial_transfer and `transferredAmount = t`; `t ≥ maxAmountRequired`
gives `success: true` with `transferredAmount = t`. -/
theorem settle_decrypted_amount_cases (payload : PaymentPayload)
    (requirements : PaymentRequirements) (env : SettleEnv)
    (hash : String) (receipt : TxReceipt) (handle : String) (hs : List String)
    (t expectedAmount : Int)
    (ha : env.hasAccount = true)
    (hw : env.write = Except.ok hash)
    (hr : env.wait hash = Except.ok receipt)
    (hst : receipt.statusSuccess = true)
    (hev : receipt.transferredEvents = handle :: hs)
    (hd : (do env.initClient; env.decrypt handle : Except String Int) = Except.ok t)
    (hm : jsBigInt? requirements.maxAmountRequired = some expectedAmount) :
    (t = 0 →
      settleConfidentialPayment payload requirements env =
        some { success := false, transaction := hash, network := payload.network,
               payer := payload.payload.authorization.«from»,
               errorReason := some "insufficient_balance", transferredAmount := none }) ∧
    (0 < t → t < expectedAmount →
      settleConfidentialPayment payload requirements env =
        some { success := false, transaction := hash, network := payload.network,
               payer := payload.payload.authorization.«from»,
               errorReason := some "partial_transfer",
               transferredAmount := some (bigintToString t) }) ∧
    (0 < expectedAmount → t ≥ expectedAmount →
      settleConfidentialPayment payload requirements env =
        some { success := true, transaction := hash, network := payload.network,
               payer := payload.payload.authorization.«from»,
               errorReason := none, transferredAmount := some (bigintToString t) }) := by
  refine ⟨?_, ?_, ?_⟩
  · intro h0
    simp [settleConfidentialPayment, ha, hw, hr, hst, hev, hd, hm, h0]
  · intro hpos hlt
    have hne : t ≠ 0 := by omega
    simp [settleConfidentialPayment, ha, hw, hr, hst, hev, hd, hm, hne, hlt]
  · intro hM hge
    have hne : t ≠ 0 := by omega
    simp [settleConfidentialPayment, ha, hw, hr, hst, hev, hd, hm, hne,
      not_lt.mpr hge]

/-- Witness for C2: a confirmed transfer whose commitment decrypts to 40
against a requirement of 100 settles as partial_transfer with
transferredAmount "40". -/
theorem settle_decrypted_amount_cases_witness :
    settleConfidentialPayment
      ⟨1, "exact-confidential", "sepolia", ⟨"0xsig", ⟨"0xf", "0xt", "0xh", "0xp",
        "0", "1000", "0xn"⟩⟩⟩
      ⟨"exact-confidential", "sepolia", "100", "r", "d", "m", "0xpay", 300, "0xasset", none⟩
      ⟨true, Except.ok "0xhash", fun _ => Except.ok ⟨true, ["0xhandle"]⟩,
        Except.ok (), fun _ => Except.ok 40⟩ =
      some { success := false, transaction := "0xhash", network := "sepolia",
             payer := "0xf", errorReason := some "partial_transfer",
             transferredAmount := some "40" } := by
  exact (settle_decrypted_amount_cases
    ⟨1, "exact-confidential", "sepolia", ⟨"0xsig", ⟨"0xf", "0xt", "0xh", "0xp",
      "0", "1000", "0xn"⟩⟩⟩
    ⟨"exact-confidential", "sepolia", "100", "r", "d", "m", "0xpay", 300, "0xasset", none⟩
    ⟨true, Except.ok "0xhash", fun _ => Except.ok ⟨true, ["0xhandle"]⟩,
      Except.ok (), fun _ => Except.ok 40⟩
    "0xhash" ⟨true, ["0xhandle"]⟩ "0xhandle" [] 40 100
    rfl rfl rfl rfl rfl rfl (by decide)).2.1 (by decide) (by decide)

/-- Counterexample to claim C8 as stated: the ledger submission produced the
hash "0xabc" and the await step then threw with message "boom"; the claim
says the result carries transactionReference "0xabc" and errorReason
unknown_error, but the code returns an empty transaction reference and the
raw message. -/
theorem settle_hard_failure_counterexample :
    settleConfidentialPayment
      ⟨1, "exact-confidential", "sepolia", ⟨"0xsig", ⟨"0xf", "0xt", "0xh", "0xp",
        "0", "1000", "0xn"⟩⟩⟩
      ⟨"exact-confidential", "sepolia", "100", "r", "d", "m", "0xpay", 300, "0xasset", none⟩
      ⟨true, Except.ok "0xabc", fun _ => Except.error "boom",
        Except.ok (), fun _ => Except.ok 40⟩ =
      some { success := false, transaction := "", network := "sepolia",
             payer := "0xf", errorReason := some "boom", transferredAmount := none } ∧
    ("" : String) ≠ "0xabc" ∧ ("boom" : String) ≠ "unknown_error" := by
  refine ⟨by decide, by decide, by decide⟩

/-- Claim C8 as amended: when the submission or the await step throws with
message `msg`, the result has `success: false`, errorReason mapped from the
known failure substrings ("insufficient balance" → insufficient_balance,
"already used" → nonce_already_used, "Invalid signature" →
invalid_signature) and otherwise the raw message itself (unknown_error only
when the message is empty), and the transaction reference is always the
empty string — even when the submission did produce a hash. -/
theorem settle_hard_failure (payload : PaymentPayload)
    (requirements : PaymentRequirements) (env : SettleEnv) (msg : String)
    (ha : env.hasAccount = true)
    (h : env.write = Except.error msg ∨
      ∃ hash, env.write = Except.ok hash ∧ env.wait hash = Except.error msg) :
    settleConfidentialPayment payload requirements env =
      some { success := false, transaction := "", network := payload.network,
             payer := payload.payload.authorization.«from»,
             errorReason := some
               (if jsIncludes msg "insufficient balance" then "insufficient_balance"
                else if jsIncludes msg "already used" then "nonce_already_used"
                else if jsIncludes msg "Invalid signature" then "invalid_signature"
                else if msg = "" then "unknown_error" else msg),
             transferredAmount := none } := by
  have hres : settleErrorResult payload msg =
      { success := false, transaction := "", network := payload.network,
        payer := payload.payload.authorization.«from»,
        errorReason := some
          (if jsIncludes msg "insufficient balance" then "insufficient_balance"
           else if jsIncludes msg "already used" then "nonce_already_used"
           else if jsIncludes msg "Invalid signature" then "invalid_signature"
           else if msg = "" then "unknown_error" else msg),
        transferredAmount := none } := by
    unfold settleErrorResult jsOrStr
    split_ifs <;> simp_all
  rcases h with hw | ⟨hash, hw, hwt⟩
  · simp [settleConfidentialPayment, ha, hw, hres]
  · simp [settleConfidentialPayment, ha, hw, hwt, hres]

/-- Witness for the amended C8: a submission that throws with a message
containing "Invalid signature" maps to invalid_signature with an empty
transaction reference. -/
theorem settle_hard_failure_witness :
    settleConfidentialPayment
      ⟨1, "exact-confidential", "sepolia", ⟨"0xsig", ⟨"0xf", "0xt", "0xh", "0xp",
        "0", "1000", "0xn"⟩⟩⟩
      ⟨"exact-confidential", "sepolia", "100", "r", "d", "m", "0xpay", 300, "0xasset", none⟩
      ⟨true, Except.error "execution reverted: Invalid signature for transfer",
        fun _ => Except.ok ⟨true, []⟩, Except.ok (), fun _ => Except.ok 0⟩ =
      some { success := false, transaction := "", network := "sepolia",
             payer := "0xf", errorReason := some "invalid_signature",
             transferredAmount := none } := by
  have h := settle_hard_failure
    ⟨1, "exact-confidential", "sepolia", ⟨"0xsig", ⟨"0xf", "0xt", "0xh", "0xp",
      "0", "1000", "0xn"⟩⟩⟩
    ⟨"exact-confidential", "sepolia", "100", "r", "d", "m", "0xpay", 300, "0xasset", none⟩
    ⟨true, Except.error "execution reverted: Invalid signature for transfer",
      fun _ => Except.ok ⟨true, []⟩, Except.ok (), fun _ => Except.ok 0⟩
    "execution reverted: Invalid signature for transfer"
    rfl (Or.inl rfl)
  rw [h]
  decide

/-! ## Theorems: the middleware -/

/-- Claim C10: a request whose path matches no configured route pattern is
passed straight to the downstream handler with no payment processing at all
— no challenge, no decoding, no verification, no settlement (an empty
protocol-event trace). -/
theorem middleware_passthrough_when_no_route_matches (options : MiddlewareOptions)
    (env : MwEnv) (url path : String) (paymentHeader : Option String)
    (hnone : ∀ e ∈ options.routes, routePatternMatches e.1 path = false) :
    confidentialPaymentMiddleware options env url path paymentHeader =
      (MwResult.passNext, []) := by
  have hfind : options.routes.find? (fun e => routePatternMatches e.1 path) = none := by
    rw [List.find?_eq_none]
    intro e he
    simp [hnone e he]
  simp [confidentialPaymentMiddleware, hfind]

/-- Witness for C10: a concrete routing table with a literal route and a
starred route, and a path matching neither, is served without payment. -/
theorem middleware_passthrough_when_no_route_matches_witness :
    confidentialPaymentMiddleware
      ⟨"0xpay", "0xasset",
        [("/weather", ⟨"1000", "sepolia", none⟩), ("/api/*", ⟨"2000", "sepolia", none⟩)]⟩
      ⟨fun _ _ => none, fun _ _ => Except.error "unused", ⟨200, "body", []⟩⟩
      "http://h/health" "/health" none = (MwResult.passNext, []) := by
  exact middleware_passthrough_when_no_route_matches
    ⟨"0xpay", "0xasset",
      [("/weather", ⟨"1000", "sepolia", none⟩), ("/api/*", ⟨"2000", "sepolia", none⟩)]⟩
    ⟨fun _ _ => none, fun _ _ => Except.error "unused", ⟨200, "body", []⟩⟩
    "http://h/health" "/health" none (by decide)

/-- Claim C1: settlement is attempted only after a verification of the same
decoded payload answered isValid and the resource operation's status was
below 400 — whenever the trace contains a settlement event for payload `p`,
the trace is exactly decode(p), verify(p) with a valid result, next, and
then settle(p), and the downstream status was below 400. -/
theorem middleware_settles_only_after_valid_verify (options : MiddlewareOptions)
    (env : MwEnv) (url path : String) (paymentHeader : Option String)
    (p : PaymentPayload)
    (hmem : MwEvent.settled p ∈
      (confidentialPaymentMiddleware options env url path paymentHeader).2) :
    env.next.status < 400 ∧
    ∃ v : VerifyResponse, ∃ routeConfig : RouteConfig,
      env.verify p (buildPaymentRequirements options routeConfig url) = some v ∧
      v.isValid = true ∧
      (confidentialPaymentMiddleware options env url path paymentHeader).2 =
        [MwEvent.decoded p, MwEvent.verified p v, MwEvent.calledNext,
         MwEvent.settled p] := by
  rcases hfind : List.find? (fun e => routePatternMatches e.1 path) options.routes with
    _ | ⟨pat, routeConfig⟩
  · simp [confidentialPaymentMiddleware, hfind] at hmem
  rcases paymentHeader with _ | payment
  · simp [confidentialPaymentMiddleware, hfind] at hmem
  rcases hdp : (decodePaymentPayload payment).bind payloadOfJson with _ | dp
  · rcases hdec : decodePaymentPayload payment with _ | j
    · simp [confidentialPaymentMiddleware, hfind, hdp, hdec] at hmem
    · have hpj : payloadOfJson j = none := by simpa [hdec] using hdp
      simp [confidentialPaymentMiddleware, hfind, hdp, hdec, hpj] at hmem
  rcases hver : env.verify dp (buildPaymentRequirements options routeConfig url) with _ | v
  · simp [confidentialPaymentMiddleware, hfind, hdp, hver] at hmem
  by_cases hvalid : v.isValid = false
  · simp [confidentialPaymentMiddleware, hfind, hdp, hver, hvalid] at hmem
  by_cases hstatus : env.next.status ≥ 400
  · simp [confidentialPaymentMiddleware, hfind, hdp, hver, hvalid, hstatus] at hmem
  have htrace : (confidentialPaymentMiddleware options env url path (some payment)).2 =
      [MwEvent.decoded dp, MwEvent.verified dp v, MwEvent.calledNext,
       MwEvent.settled dp] := by
    rcases hset : env.settle dp (buildPaymentRequirements options routeConfig url) with
      msg | st
    · simp [confidentialPaymentMiddleware, hfind, hdp, hver, hvalid, hstatus, hset]
    · by_cases hsuc : st.success = true <;>
        simp [confidentialPaymentMiddleware, hfind, hdp, hver, hvalid, hstatus, hset, hsuc]
  rw [htrace] at hmem
  have hp : p = dp := by simp_all
  subst hp
  have hval : v.isValid = true := by
    cases h : v.isValid
    · exact absurd h hvalid
    · rfl
  exact ⟨by omega, v, routeConfig, hver, hval, htrace⟩

/-! ## Theorems: the codec, bottom up. First the platform layers. -/

theorem toNat_ofNat_valid {n : Nat} (h : n.isValidChar) : (Char.ofNat n).toNat = n := by
  have hlt : n < 1114112 := by
    rcases h with h | ⟨h1, h2⟩ <;> omega
  unfold Char.ofNat
  rw [dif_pos h]
  simp [Char.toNat, Char.ofNatAux, UInt32.toNat, UInt32.ofNat', BitVec.toNat_ofNat,
    Nat.mod_eq_of_lt hlt]

theorem char_valid_ranges (c : Char) :
    c.toNat < 0xd800 ∨ (0xe000 ≤ c.toNat ∧ c.toNat < 0x110000) := c.valid

/-! ### Base64 -/

theorem b64Val_b64Char {n : Nat} (h : n < 64) : b64Val (b64Char n) = some n := by
  interval_cases n <;> decide

theorem b64_roundtrip : ∀ bs : List Nat, (∀ b ∈ bs, b < 256) →
    b64Decode (b64Encode bs) = bs
  | [], _ => by decide
  | [b1], h => by
    have h1 : b1 < 256 := h b1 (by simp)
    have e1 : b64Val (b64Char (b1 / 4)) = some (b1 / 4) := b64Val_b64Char (by omega)
    have e2 : b64Val (b64Char (b1 % 4 * 16)) = some (b1 % 4 * 16) :=
      b64Val_b64Char (by omega)
    simp [b64Encode, b64Decode, List.filterMap, e1, e2, b64DecodeCore]
    omega
  | [b1, b2], h => by
    have h1 : b1 < 256 := h b1 (by simp)
    have h2 : b2 < 256 := h b2 (by simp)
    have e1 : b64Val (b64Char (b1 / 4)) = some (b1 / 4) := b64Val_b64Char (by omega)
    have e2 : b64Val (b64Char (b1 % 4 * 16 + b2 / 16)) = some (b1 % 4 * 16 + b2 / 16) :=
      b64Val_b64Char (by omega)
    have e3 : b64Val (b64Char (b2 % 16 * 4)) = some (b2 % 16 * 4) :=
      b64Val_b64Char (by omega)
    simp [b64Encode, b64Decode, List.filterMap, e1, e2, e3, b64DecodeCore]
    constructor <;> omega
  | b1 :: b2 :: b3 :: rest, h => by
    have h1 : b1 < 256 := h b1 (by simp)
    have h2 : b2 < 256 := h b2 (by simp)
    have h3 : b3 < 256 := h b3 (by simp)
    have e1 : b64Val (b64Char (b1 / 4)) = some (b1 / 4) := b64Val_b64Char (by omega)
    have e2 : b64Val (b64Char (b1 % 4 * 16 + b2 / 16)) = some (b1 % 4 * 16 + b2 / 16) :=
      b64Val_b64Char (by omega)
    have e3 : b64Val (b64Char (b2 % 16 * 4 + b3 / 64)) = some (b2 % 16 * 4 + b3 / 64) :=
      b64Val_b64Char (by omega)
    have e4 : b64Val (b64Char (b3 % 64)) = some (b3 % 64) := b64Val_b64Char (by omega)
    have ih := b64_roundtrip rest (fun b hb => h b (by simp [hb]))
    simp only [b64Encode, b64Decode, List.filterMap_cons, e1, e2, e3, e4, b64DecodeCore]
    simp only [b64Decode] at ih
    rw [ih]
    simp only [List.cons.injEq]
    refine ⟨by omega, by omega, by omega, ?_⟩
    try rfl
    try trivial

/-! ### UTF-8 -/

theorem utf8EncodeChar_lt256 (c : Char) : ∀ b ∈ utf8EncodeChar c, b < 256 := by
  have hval := char_valid_ranges c
  intro b hb
  by_cases h1 : c.toNat < 0x80
  · simp [utf8EncodeChar, h1] at hb
    omega
  · by_cases h2 : c.toNat < 0x800
    · simp [utf8EncodeChar, h1, h2] at hb
      rcases hb with hb | hb <;> omega
    · by_cases h3 : c.toNat < 0x10000
      · simp [utf8EncodeChar, h1, h2, h3] at hb
        rcases hb with hb | hb | hb <;> omega
      · have h4 : c.toNat < 0x110000 := by rcases hval with h | ⟨ha, hb2⟩ <;> omega
        simp [utf8EncodeChar, h1, h2, h3] at hb
        rcases hb with hb | hb | hb | hb <;> omega

theorem utf8Encode_lt256 : ∀ cs : List Char, ∀ b ∈ utf8Encode cs, b < 256
  | [] => by simp [utf8Encode]
  | c :: cs => by
    intro b hb
    simp only [utf8Encode, List.mem_append] at hb
    rcases hb with hb | hb
    · exact utf8EncodeChar_lt256 c b hb
    · exact utf8Encode_lt256 cs b hb

theorem utf8EncodeChar_length_pos (c : Char) : 1 ≤ (utf8EncodeChar c).length := by
  simp only [utf8EncodeChar]
  split_ifs <;> simp

theorem utf8Encode_length_ge : ∀ cs : List Char, cs.length ≤ (utf8Encode cs).length
  | [] => by simp [utf8Encode]
  | c :: cs => by
    simp only [utf8Encode, List.length_append, List.length_cons]
    have h1 := utf8EncodeChar_length_pos c
    have h2 := utf8Encode_length_ge cs
    omega

theorem utf8DecodeF_encodeChar (c : Char) (f : Nat) (rest : List Nat) :
    utf8DecodeF (f + 1) (utf8EncodeChar c ++ rest) = c :: utf8DecodeF f rest := by
  have hval := char_valid_ranges c
  by_cases h1 : c.toNat < 0x80
  · have he : utf8EncodeChar c = [c.toNat] := by simp [utf8EncodeChar, h1]
    rw [he]
    simp [utf8DecodeF, h1, Char.ofNat_toNat]
  · by_cases h2 : c.toNat < 0x800
    · have he : utf8EncodeChar c = [0xC0 + c.toNat / 64, 0x80 + c.toNat % 64] := by
        simp [utf8EncodeChar, h1, h2]
      rw [he]
      have c1 : ¬(0xC0 + c.toNat / 64 < 0x80) := by omega
      have c2 : ¬(0xC0 + c.toNat / 64 < 0xC0) := by omega
      have c3 : 0xC0 + c.toNat / 64 < 0xE0 := by omega
      have c4 : isCont (0x80 + c.toNat % 64) = true := by
        simp only [isCont, Bool.and_eq_true, decide_eq_true_eq]
        omega
      have hv : (0xC0 + c.toNat / 64 - 0xC0) * 64 + (0x80 + c.toNat % 64 - 0x80)
          = c.toNat := by omega
      simp [utf8DecodeF, c1, c2, c3, c4, hv, h1, Char.ofNat_toNat]
      rw [show c.toNat / 64 * 64 + c.toNat % 64 = c.toNat from by omega, if_neg h1,
        Char.ofNat_toNat]
    · by_cases h3 : c.toNat < 0x10000
      · have he : utf8EncodeChar c =
            [0xE0 + c.toNat / 4096, 0x80 + c.toNat / 64 % 64, 0x80 + c.toNat % 64] := by
          simp [utf8EncodeChar, h1, h2, h3]
        rw [he]
        have c1 : ¬(0xE0 + c.toNat / 4096 < 0x80) := by omega
        have c2 : ¬(0xE0 + c.toNat / 4096 < 0xC0) := by omega
        have c3 : ¬(0xE0 + c.toNat / 4096 < 0xE0) := by omega
        have c4 : 0xE0 + c.toNat / 4096 < 0xF0 := by omega
        have c5 : isCont (0x80 + c.toNat / 64 % 64) = true := by
          simp only [isCont, Bool.and_eq_true, decide_eq_true_eq]
          omega
        have c6 : isCont (0x80 + c.toNat % 64) = true := by
          simp only [isCont, Bool.and_eq_true, decide_eq_true_eq]
          omega
        have hv : (0xE0 + c.toNat / 4096 - 0xE0) * 4096 + (0x80 + c.toNat / 64 % 64 - 0x80) * 64
            + (0x80 + c.toNat % 64 - 0x80) = c.toNat := by omega
        have c7 : ¬(c.toNat < 0x800 ∨ (0xD800 ≤ c.toNat ∧ c.toNat < 0xE000)) := by
          rcases hval with h | ⟨ha, hb⟩ <;> omega
        simp [utf8DecodeF, c1, c2, c3, c4, c5, c6, hv, c7, Char.ofNat_toNat]
        rw [show c.toNat / 4096 * 4096 + c.toNat / 64 % 64 * 64 + c.toNat % 64 = c.toNat
            from by omega, if_neg c7, Char.ofNat_toNat]
      · have h4 : c.toNat < 0x110000 := by rcases hval with h | ⟨ha, hb⟩ <;> omega
        have he : utf8EncodeChar c =
            [0xF0 + c.toNat / 262144, 0x80 + c.toNat / 4096 % 64,
             0x80 + c.toNat / 64 % 64, 0x80 + c.toNat % 64] := by
          simp [utf8EncodeChar, h1, h2, h3]
        rw [he]
        have c1 : ¬(0xF0 + c.toNat / 262144 < 0x80) := by omega
        have c2 : ¬(0xF0 + c.toNat / 262144 < 0xC0) := by omega
        have c3 : ¬(0xF0 + c.toNat / 262144 < 0xE0) := by omega
        have c4 : ¬(0xF0 + c.toNat / 262144 < 0xF0) := by omega
        have c5 : 0xF0 + c.toNat / 262144 < 0xF8 := by omega
        have c6 : isCont (0x80 + c.toNat / 4096 % 64) = true := by
          simp only [isCont, Bool.and_eq_true, decide_eq_true_eq]
          omega
        have c7 : isCont (0x80 + c.toNat / 64 % 64) = true := by
          simp only [isCont, Bool.and_eq_true, decide_eq_true_eq]
          omega
        have c8 : isCont (0x80 + c.toNat % 64) = true := by
          simp only [isCont, Bool.and_eq_true, decide_eq_true_eq]
          omega
        have hv : (0xF0 + c.toNat / 262144 - 0xF0) * 262144
            + (0x80 + c.toNat / 4096 % 64 - 0x80) * 4096
            + (0x80 + c.toNat / 64 % 64 - 0x80) * 64
            + (0x80 + c.toNat % 64 - 0x80) = c.toNat := by omega
        have c9 : ¬(c.toNat < 0x10000 ∨ 0x110000 ≤ c.toNat) := by omega
        simp [utf8DecodeF, c1, c2, c3, c4, c5, c6, c7, c8, hv, c9, Char.ofNat_toNat]
        rw [show c.toNat / 262144 * 262144 + c.toNat / 4096 % 64 * 4096
              + c.toNat / 64 % 64 * 64 + c.toNat % 64 = c.toNat
            from by omega, if_neg c9, Char.ofNat_toNat]

theorem utf8DecodeF_encode : ∀ (cs : List Char) (f : Nat), cs.length < f →
    utf8DecodeF f (utf8Encode cs) = cs
  | [], f, hf => by
    cases f with
    | zero => omega
    | succ f => simp [utf8Encode, utf8DecodeF]
  | c :: cs, f, hf => by
    cases f with
    | zero => omega
    | succ f =>
      have ih := utf8DecodeF_encode cs f (by simp at hf; omega)
      simp only [utf8Encode]
      rw [utf8DecodeF_encodeChar, ih]

theorem utf8_roundtrip (cs : List Char) : utf8Decode (utf8Encode cs) = cs := by
  unfold utf8Decode
  exact utf8DecodeF_encode cs ((utf8Encode cs).length + 1)
    (by have := utf8Encode_length_ge cs; omega)

/-! ### Decimal digits -/

theorem isDigitChar_digitChar (d : Nat) : isDigitChar (digitChar d) = true := by
  unfold digitChar
  split <;> decide

theorem digitChar_toNat (d : Nat) (h : d < 10) : (digitChar d).toNat - 48 = d := by
  interval_cases d <;> decide

theorem natDigitsAux_append : ∀ (f n : Nat) (acc : List Char),
    natDigitsAux f n acc = natDigitsAux f n [] ++ acc
  | 0, n, acc => by simp [natDigitsAux]
  | f + 1, n, acc => by
    by_cases h : n < 10
    · simp [natDigitsAux, h]
    · rw [natDigitsAux, if_neg h, natDigitsAux_append f (n / 10) (digitChar (n % 10) :: acc)]
      conv_rhs => rw [natDigitsAux, if_neg h,
        natDigitsAux_append f (n / 10) [digitChar (n % 10)]]
      simp

theorem natOfDigits_append_one (ds : List Char) (c : Char) :
    natOfDigits (ds ++ [c]) = natOfDigits ds * 10 + (c.toNat - 48) := by
  simp [natOfDigits, List.foldl_append]

theorem natDigitsAux_value : ∀ (f n : Nat), n < 10 ^ f →
    natOfDigits (natDigitsAux f n []) = n
  | 0, n, h => by
    simp at h
    simp [natDigitsAux, natOfDigits, h]
  | f + 1, n, h => by
    by_cases hn : n < 10
    · simp [natDigitsAux, hn, natOfDigits]
      have := digitChar_toNat n hn
      omega
    · rw [natDigitsAux, if_neg hn, natDigitsAux_append, natOfDigits_append_one,
        natDigitsAux_value f (n / 10) (by rw [pow_succ] at h; omega)]
      have := digitChar_toNat (n % 10) (by omega)
      omega

theorem natOfDigits_natDigits (n : Nat) : natOfDigits (natDigits n) = n := by
  unfold natDigits
  exact natDigitsAux_value (n + 1) n
    (lt_of_lt_of_le (Nat.lt_pow_self (by norm_num) n)
      (Nat.pow_le_pow_right (by norm_num) (by omega)))

theorem natDigitsAux_all_digit : ∀ (f n : Nat) (acc : List Char),
    (∀ c ∈ acc, isDigitChar c = true) →
    ∀ c ∈ natDigitsAux f n acc, isDigitChar c = true
  | 0, n, acc, hacc => by simpa [natDigitsAux] using hacc
  | f + 1, n, acc, hacc => by
    by_cases h : n < 10
    · simp only [natDigitsAux, if_pos h]
      intro c hc
      rcases List.mem_cons.mp hc with hc | hc
      · subst hc
        exact isDigitChar_digitChar n
      · exact hacc c hc
    · rw [natDigitsAux, if_neg h]
      refine natDigitsAux_all_digit f (n / 10) _ ?_
      intro c hc
      rcases List.mem_cons.mp hc with hc | hc
      · subst hc
        exact isDigitChar_digitChar (n % 10)
      · exact hacc c hc

theorem natDigits_all_digit (n : Nat) : ∀ c ∈ natDigits n, isDigitChar c = true :=
  natDigitsAux_all_digit (n + 1) n [] (by simp)

theorem natDigitsAux_ne_nil : ∀ (f n : Nat) (acc : List Char),
    natDigitsAux (f + 1) n acc ≠ []
  | 0, n, acc => by
    by_cases h : n < 10 <;> simp [natDigitsAux, h]
  | f + 1, n, acc => by
    by_cases h : n < 10
    · simp [natDigitsAux, h]
    · rw [natDigitsAux, if_neg h]
      exact natDigitsAux_ne_nil f (n / 10) _

theorem natDigits_ne_nil (n : Nat) : natDigits n ≠ [] := natDigitsAux_ne_nil n n []

theorem takeDigits_spec : ∀ (ds rest : List Char),
    (∀ c ∈ ds, isDigitChar c = true) →
    (∀ c, rest.head? = some c → isDigitChar c = false) →
    takeDigits (ds ++ rest) = (ds, rest)
  | [], rest, _, hrest => by
    cases rest with
    | nil => simp [takeDigits]
    | cons c tl =>
      have := hrest c (by simp)
      simp [takeDigits, this]
  | d :: ds, rest, hds, hrest => by
    have hd : isDigitChar d = true := hds d (by simp)
    simp only [List.cons_append, takeDigits, hd, if_pos]
    rw [show ds.append rest = ds ++ rest from rfl,
      takeDigits_spec ds rest (fun c hc => hds c (by simp [hc])) hrest]

theorem parseNat_digits (n : Nat) (rest : List Char)
    (hrest : ∀ c, rest.head? = some c → isDigitChar c = false) :
    parseNat (natDigits n ++ rest) = some (n, rest) := by
  unfold parseNat
  rw [takeDigits_spec (natDigits n) rest (natDigits_all_digit n) hrest]
  simp [natDigits_ne_nil n, natOfDigits_natDigits n]

/-! ### JSON string literals -/

theorem hexVal_hexDigitChar {d : Nat} (h : d < 16) : hexVal (hexDigitChar d) = some d := by
  interval_cases d <;> decide

theorem parseStrBodyF_escapeChar (c : Char) (f : Nat) (tail : List Char) :
    parseStrBodyF (f + 1) (escapeChar c ++ tail) =
      (parseStrBodyF f tail).map (consFst c) := by
  by_cases h1 : c = '"'
  · subst h1
    rfl
  by_cases h2 : c = '\\'
  · subst h2
    rfl
  by_cases h3 : c = Char.ofNat 8
  · subst h3
    rfl
  by_cases h4 : c = Char.ofNat 9
  · subst h4
    rfl
  by_cases h5 : c = Char.ofNat 10
  · subst h5
    rfl
  by_cases h6 : c = Char.ofNat 12
  · subst h6
    rfl
  by_cases h7 : c = Char.ofNat 13
  · subst h7
    rfl
  by_cases h8 : c.toNat < 32
  · have he : escapeChar c =
        ['\\', 'u', '0', '0', hexDigitChar (c.toNat / 16), hexDigitChar (c.toNat % 16)] := by
      simp [escapeChar, h1, h2, h3, h4, h5, h6, h7, h8]
    rw [he]
    have e1 : hexVal (hexDigitChar (c.toNat / 16)) = some (c.toNat / 16) :=
      hexVal_hexDigitChar (by omega)
    have e2 : hexVal (hexDigitChar (c.toNat % 16)) = some (c.toNat % 16) :=
      hexVal_hexDigitChar (by omega)
    have hv : c.toNat / 16 * 16 + c.toNat % 16 = c.toNat := by omega
    have c1 : ¬(0xD800 ≤ c.toNat ∧ c.toNat < 0xDC00) := by omega
    have c2 : ¬(0xDC00 ≤ c.toNat ∧ c.toNat < 0xE000) := by omega
    have e0 : hexVal '0' = some 0 := rfl
    simp [parseStrBodyF, hex4, e0, e1, e2, hv, c1, c2, Char.ofNat_toNat]
  · have he : escapeChar c = [c] := by
      simp [escapeChar, h1, h2, h3, h4, h5, h6, h7, h8]
    rw [he]
    simp [parseStrBodyF, h1, h2, h8]

theorem parseStrBodyF_escapeList : ∀ (l : List Char) (f : Nat) (rest : List Char),
    l.length < f → parseStrBodyF f (escapeList l ++ '"' :: rest) = some (l, rest)
  | [], f, rest, hf => by
    cases f with
    | zero => omega
    | succ f => simp [escapeList, parseStrBodyF]
  | c :: l, f, rest, hf => by
    cases f with
    | zero => omega
    | succ f =>
      simp only [escapeList, List.append_assoc]
      rw [parseStrBodyF_escapeChar c f (escapeList l ++ '"' :: rest),
        parseStrBodyF_escapeList l f rest (by simp at hf; omega)]
      rfl

theorem escapeChar_length_pos (c : Char) : 1 ≤ (escapeChar c).length := by
  simp only [escapeChar]
  split_ifs <;> simp

theorem escapeList_length_ge : ∀ l : List Char, l.length ≤ (escapeList l).length
  | [] => by simp [escapeList]
  | c :: l => by
    simp only [escapeList, List.length_append, List.length_cons]
    have h1 := escapeChar_length_pos c
    have h2 := escapeList_length_ge l
    omega

/-- The string-literal body parser inverts the printer: after the opening
quote, the escaped content followed by the closing quote parses back to the
original characters. -/
theorem parseStrBody_escapeList (l rest : List Char) :
    parseStrBody (escapeList l ++ '"' :: rest) = some (l, rest) := by
  unfold parseStrBody
  refine parseStrBodyF_escapeList l _ rest ?_
  have := escapeList_length_ge l
  simp only [List.length_append, List.length_cons]
  omega

/-! ### JSON values: the parser inverts the printer -/

theorem skipWs_cons {c : Char} (cs : List Char) (h : isWsChar c = false) :
    skipWs (c :: cs) = c :: cs := by
  simp [skipWs, h]

theorem digitChar_facts {d : Char} (hd : isDigitChar d = true) :
    d ≠ '"' ∧ d ≠ '{' ∧ d ≠ '[' ∧ d ≠ 't' ∧ d ≠ 'f' ∧ d ≠ 'n' ∧ d ≠ '-' ∧
    isWsChar d = false ∧ d ≠ ']' ∧ d ≠ '}' := by
  simp only [isDigitChar, Bool.and_eq_true, decide_eq_true_eq] at hd
  have key : ∀ c : Char, ¬(48 ≤ c.toNat ∧ c.toNat ≤ 57) → d ≠ c := by
    intro c hc h
    subst h
    exact hc hd
  have w1 : d ≠ ' ' := key ' ' (by decide)
  have w2 : d ≠ Char.ofNat 9 := key (Char.ofNat 9) (by decide)
  have w3 : d ≠ Char.ofNat 10 := key (Char.ofNat 10) (by decide)
  have w4 : d ≠ Char.ofNat 13 := key (Char.ofNat 13) (by decide)
  refine ⟨key _ (by decide), key _ (by decide), key _ (by decide), key _ (by decide),
    key _ (by decide), key _ (by decide), key _ (by decide), ?_, key _ (by decide),
    key _ (by decide)⟩
  simp [isWsChar, w1, w2, w3, w4]

theorem parseValue_intDigits (n : Int) (f : Nat) (rest : List Char) (hf : 1 ≤ f)
    (hrest : ∀ c, rest.head? = some c → isDigitChar c = false) :
    parseValue f (intDigits n ++ rest) = some (Json.num n, rest) := by
  cases f with
  | zero => omega
  | succ f =>
    by_cases hneg : n < 0
    · rw [show intDigits n = '-' :: natDigits n.natAbs from by
        unfold intDigits; rw [if_pos hneg]]
      have hsw : skipWs ('-' :: (natDigits n.natAbs ++ rest)) =
          '-' :: (natDigits n.natAbs ++ rest) := skipWs_cons _ (by decide)
      simp only [List.cons_append, parseValue, hsw]
      rw [if_neg (by decide), if_neg (by decide), if_neg (by decide), if_neg (by decide),
        if_neg (by decide), if_neg (by decide), if_pos (by decide)]
      rw [parseNat_digits n.natAbs rest hrest]
      simp only [Option.map_some']
      have heq : -(n.natAbs : Int) = n := by omega
      rw [heq]
    · rw [show intDigits n = natDigits n.natAbs from by
        unfold intDigits; rw [if_neg hneg]]
      rcases hnd : natDigits n.natAbs with _ | ⟨d, ds⟩
      · exact absurd hnd (natDigits_ne_nil n.natAbs)
      have hdd : isDigitChar d = true := by
        have := natDigits_all_digit n.natAbs d
        rw [hnd] at this
        exact this (by simp)
      obtain ⟨q1, q2, q3, q4, q5, q6, q7, q8, _, _⟩ := digitChar_facts hdd
      have hsw : skipWs (d :: (ds ++ rest)) = d :: (ds ++ rest) := skipWs_cons _ q8
      simp only [List.cons_append, parseValue, hsw]
      rw [if_neg q1, if_neg q2, if_neg q3, if_neg q4, if_neg q5, if_neg q6, if_neg q7,
        if_pos hdd]
      rw [show d :: (ds ++ rest) = natDigits n.natAbs ++ rest from by simp [hnd]]
      rw [parseNat_digits n.natAbs rest hrest]
      simp only [Option.map_some']
      have heq : (n.natAbs : Int) = n := by omega
      rw [heq]

theorem printValue_head (j : Json) :
    ∃ c cs, printValue j = c :: cs ∧ isWsChar c = false ∧ c ≠ ']' ∧ c ≠ '}' ∧ c ≠ ',' := by
  cases j with
  | null => exact ⟨'n', _, rfl, by decide, by decide, by decide, by decide⟩
  | bool b =>
    cases b with
    | true => exact ⟨'t', _, rfl, by decide, by decide, by decide, by decide⟩
    | false => exact ⟨'f', _, rfl, by decide, by decide, by decide, by decide⟩
  | num n =>
    by_cases hneg : n < 0
    · refine ⟨'-', natDigits n.natAbs, ?_, by decide, by decide, by decide, by decide⟩
      show intDigits n = '-' :: natDigits n.natAbs
      unfold intDigits
      rw [if_pos hneg]
    · rcases hnd : natDigits n.natAbs with _ | ⟨d, ds⟩
      · exact absurd hnd (natDigits_ne_nil n.natAbs)
      have hdd : isDigitChar d = true := by
        have := natDigits_all_digit n.natAbs d
        rw [hnd] at this
        exact this (by simp)
      obtain ⟨_, _, _, _, _, _, _, q8, q9, q10⟩ := digitChar_facts hdd
      have hq : d ≠ ',' := by
        simp only [isDigitChar, Bool.and_eq_true, decide_eq_true_eq] at hdd
        intro h
        subst h
        revert hdd
        decide
      refine ⟨d, ds, ?_, q8, q9, q10, hq⟩
      show intDigits n = d :: ds
      unfold intDigits
      rw [if_neg hneg, hnd]
  | str s => exact ⟨'"', _, rfl, by decide, by decide, by decide, by decide⟩
  | arr xs =>
    cases xs with
    | nil => exact ⟨'[', _, rfl, by decide, by decide, by decide, by decide⟩
    | cons x xs =>
      exact ⟨'[', printValue x ++ printElemsRest xs ++ [']'], rfl, by decide, by decide,
        by decide, by decide⟩
  | obj ms =>
    cases ms with
    | nil => exact ⟨'{', _, rfl, by decide, by decide, by decide, by decide⟩
    | cons k v ms =>
      exact ⟨'{', printString k ++ ':' :: printValue v ++ printMembersRest ms ++ ['}'],
        rfl, by decide, by decide, by decide, by decide⟩

theorem jsonList_sizeOf_pos (xs : JsonList) : 0 < sizeOf xs := by
  cases xs <;> simp

theorem jsonObj_sizeOf_pos (ms : JsonObj) : 0 < sizeOf ms := by
  cases ms <;> simp

mutual
/-- The JSON parser inverts the printer on values, with any remainder that
does not begin with a digit. -/
theorem parse_print_value : ∀ (j : Json) (f : Nat) (rest : List Char),
    jsonFuel j ≤ f →
    (∀ c, rest.head? = some c → isDigitChar c = false) →
    parseValue f (printValue j ++ rest) = some (j, rest)
  | Json.null, f, rest, hf, _ => by
    have h1 : 1 ≤ f := le_trans (by simp [jsonFuel]) hf
    cases f with
    | zero => omega
    | succ f => rfl
  | Json.bool true, f, rest, hf, _ => by
    have h1 : 1 ≤ f := le_trans (by simp [jsonFuel]) hf
    cases f with
    | zero => omega
    | succ f => rfl
  | Json.bool false, f, rest, hf, _ => by
    have h1 : 1 ≤ f := le_trans (by simp [jsonFuel]) hf
    cases f with
    | zero => omega
    | succ f => rfl
  | Json.num n, f, rest, hf, hrest =>
    parseValue_intDigits n f rest (le_trans (by simp [jsonFuel]) hf) hrest
  | Json.str s, f, rest, hf, _ => by
    have h1 : 1 ≤ f := le_trans (by simp [jsonFuel]) hf
    cases f with
    | zero => omega
    | succ f =>
      have hform : printValue (Json.str s) ++ rest =
          '"' :: (escapeList s.data ++ ('"' :: rest)) := by
        simp [printValue, printString]
      rw [hform]
      have hsw : skipWs ('"' :: (escapeList s.data ++ ('"' :: rest))) =
          '"' :: (escapeList s.data ++ ('"' :: rest)) := skipWs_cons _ (by decide)
      simp only [parseValue, hsw]
      rw [if_pos trivial, parseStrBody_escapeList s.data rest]
      rfl
  | Json.arr JsonList.nil, f, rest, hf, _ => by
    have h1 : 1 ≤ f := le_trans (by simp [jsonFuel, elemsFuel]) hf
    cases f with
    | zero => omega
    | succ f => rfl
  | Json.arr (JsonList.cons x xs), f, rest, hf, _ => by
    have h1 : 1 + elemsFuel (JsonList.cons x xs) ≤ f := le_of_eq_of_le (by rfl) hf
    cases f with
    | zero => omega
    | succ f =>
      have hfe : elemsFuel (JsonList.cons x xs) ≤ f := by omega
      obtain ⟨c0, cs0, hpx, hnws, hnb, _, _⟩ := printValue_head x
      have hform : printValue (Json.arr (JsonList.cons x xs)) ++ rest =
          '[' :: (printValue x ++ (printElemsRest xs ++ (']' :: rest))) := by
        show ('[' :: printValue x ++ printElemsRest xs ++ [']']) ++ rest = _
        simp
      rw [hform]
      have hsw1 : skipWs ('[' :: (printValue x ++ (printElemsRest xs ++ (']' :: rest)))) =
          '[' :: (printValue x ++ (printElemsRest xs ++ (']' :: rest))) :=
        skipWs_cons _ (by decide)
      simp only [parseValue, hsw1]
      rw [if_pos trivial]
      have hsw2 : skipWs (printValue x ++ (printElemsRest xs ++ (']' :: rest))) =
          c0 :: (cs0 ++ (printElemsRest xs ++ (']' :: rest))) := by
        rw [hpx, List.cons_append]
        exact skipWs_cons _ hnws
      rw [hsw2]
      have harm : (match c0 :: (cs0 ++ (printElemsRest xs ++ (']' :: rest))) with
          | ']' :: r => some (Json.arr JsonList.nil, r)
          | _ => (parseElems f (printValue x ++ (printElemsRest xs ++ (']' :: rest)))).map
              (fun p => (Json.arr p.1, p.2))) =
          (parseElems f (printValue x ++ (printElemsRest xs ++ (']' :: rest)))).map
              (fun p => (Json.arr p.1, p.2)) := by
        split
        · rename_i heq
          rw [List.cons.injEq] at heq
          exact absurd heq.1 hnb
        · rfl
      rw [harm, parse_print_elems x xs f rest hfe]
      rfl
  | Json.obj JsonObj.nil, f, rest, hf, _ => by
    have h1 : 1 ≤ f := le_trans (by simp [jsonFuel, membersFuel]) hf
    cases f with
    | zero => omega
    | succ f => rfl
  | Json.obj (JsonObj.cons k v ms), f, rest, hf, _ => by
    have h1 : 1 + membersFuel (JsonObj.cons k v ms) ≤ f := le_of_eq_of_le (by rfl) hf
    cases f with
    | zero => omega
    | succ f =>
      have hfm : membersFuel (JsonObj.cons k v ms) ≤ f := by omega
      have hform : printValue (Json.obj (JsonObj.cons k v ms)) ++ rest =
          '{' :: (printString k ++
            (':' :: (printValue v ++ (printMembersRest ms ++ ('}' :: rest))))) := by
        show ('{' :: printString k ++ ':' :: printValue v ++ printMembersRest ms ++ ['}'])
            ++ rest = _
        simp
      rw [hform]
      have hsw1 : skipWs ('{' :: (printString k ++
            (':' :: (printValue v ++ (printMembersRest ms ++ ('}' :: rest)))))) =
          '{' :: (printString k ++
            (':' :: (printValue v ++ (printMembersRest ms ++ ('}' :: rest)))))  :=
        skipWs_cons _ (by decide)
      simp only [parseValue, hsw1]
      rw [if_pos trivial]
      have hsw2 : skipWs (printString k ++
            (':' :: (printValue v ++ (printMembersRest ms ++ ('}' :: rest))))) =
          '"' :: (escapeList k.data ++
            ('"' :: (':' :: (printValue v ++ (printMembersRest ms ++ ('}' :: rest)))))) := by
        rw [show printString k ++
            (':' :: (printValue v ++ (printMembersRest ms ++ ('}' :: rest)))) =
            '"' :: (escapeList k.data ++
              ('"' :: (':' :: (printValue v ++ (printMembersRest ms ++ ('}' :: rest))))))
          from by simp [printString]]
        exact skipWs_cons _ (by decide)
      rw [hsw2]
      have harm : (match '"' :: (escapeList k.data ++
            ('"' :: (':' :: (printValue v ++ (printMembersRest ms ++ ('}' :: rest)))))) with
          | '}' :: r => some (Json.obj JsonObj.nil, r)
          | _ => (parseMembers f (printString k ++
              (':' :: (printValue v ++ (printMembersRest ms ++ ('}' :: rest)))))).map
              (fun p => (Json.obj p.1, p.2))) =
          (parseMembers f (printString k ++
              (':' :: (printValue v ++ (printMembersRest ms ++ ('}' :: rest)))))).map
              (fun p => (Json.obj p.1, p.2)) := by
        split
        · rename_i heq
          rw [List.cons.injEq] at heq
          exact absurd heq.1 (by decide)
        · rfl
      rw [harm, parse_print_members k v ms f rest hfm]
      rfl
termination_by j f rest hf hrest => sizeOf j
decreasing_by
  all_goals simp
  all_goals omega

/-- The parser for the members of a nonempty array inverts the printer. -/
theorem parse_print_elems : ∀ (x : Json) (xs : JsonList) (f : Nat) (rest : List Char),
    elemsFuel (JsonList.cons x xs) ≤ f →
    parseElems f (printValue x ++ (printElemsRest xs ++ (']' :: rest))) =
      some (JsonList.cons x xs, rest)
  | x, JsonList.nil, f, rest, hfe => by
    have h1 : 1 ≤ f := le_trans (by simp [elemsFuel]) hfe
    cases f with
    | zero => omega
    | succ f =>
      have hx : jsonFuel x ≤ f := by
        have h3 : elemsFuel (JsonList.cons x JsonList.nil) =
            1 + max (jsonFuel x) (elemsFuel JsonList.nil) := rfl
        omega
      have hhead : ∀ c, (printElemsRest JsonList.nil ++ (']' :: rest)).head? = some c →
          isDigitChar c = false := by
        intro c hc
        simp [printElemsRest] at hc
        subst hc
        decide
      simp only [parseElems]
      rw [parse_print_value x f _ hx hhead]
      dsimp only
      have hsw : skipWs (printElemsRest JsonList.nil ++ (']' :: rest)) = ']' :: rest := by
        simp [printElemsRest]
        exact skipWs_cons _ (by decide)
      rw [hsw]
      rfl
  | x, JsonList.cons y ys, f, rest, hfe => by
    have h1 : 1 ≤ f := le_trans (by simp [elemsFuel]) hfe
    cases f with
    | zero => omega
    | succ f =>
      have hx : jsonFuel x ≤ f := by
        have h3 : elemsFuel (JsonList.cons x (JsonList.cons y ys)) =
            1 + max (jsonFuel x) (elemsFuel (JsonList.cons y ys)) := rfl
        omega
      have hhead : ∀ c, (printElemsRest (JsonList.cons y ys) ++ (']' :: rest)).head? =
          some c → isDigitChar c = false := by
        intro c hc
        simp [printElemsRest] at hc
        subst hc
        decide
      simp only [parseElems]
      rw [parse_print_value x f _ hx hhead]
      dsimp only
      have hsw : skipWs (printElemsRest (JsonList.cons y ys) ++ (']' :: rest)) =
          ',' :: (printValue y ++ (printElemsRest ys ++ (']' :: rest))) := by
        rw [show printElemsRest (JsonList.cons y ys) ++ (']' :: rest) =
            ',' :: (printValue y ++ (printElemsRest ys ++ (']' :: rest))) from by
          simp [printElemsRest]]
        exact skipWs_cons _ (by decide)
      rw [hsw]
      have hfe2 : elemsFuel (JsonList.cons y ys) ≤ f := by
        have h3 : elemsFuel (JsonList.cons x (JsonList.cons y ys)) =
            1 + max (jsonFuel x) (elemsFuel (JsonList.cons y ys)) := rfl
        omega
      split
      · rename_i r2 heq
        rw [List.cons.injEq] at heq
        rw [← heq.2, parse_print_elems y ys f rest hfe2]
      · rename_i r2 heq
        rw [List.cons.injEq] at heq
        exact absurd heq.1 (by decide)
      · rename_i hn1 hn2
        exact absurd rfl (hn1 (printValue y ++ (printElemsRest ys ++ (']' :: rest))))
termination_by x xs f rest hfe => sizeOf x + sizeOf xs
decreasing_by
  all_goals simp
  all_goals omega

/-- The parser for the members of a nonempty object inverts the printer. -/
theorem parse_print_members : ∀ (k : String) (v : Json) (ms : JsonObj) (f : Nat)
    (rest : List Char),
    membersFuel (JsonObj.cons k v ms) ≤ f →
    parseMembers f (printString k ++
        (':' :: (printValue v ++ (printMembersRest ms ++ ('}' :: rest))))) =
      some (JsonObj.cons k v ms, rest)
  | k, v, JsonObj.nil, f, rest, hfm => by
    have h1 : 1 ≤ f := le_trans (by simp [membersFuel]) hfm
    cases f with
    | zero => omega
    | succ f =>
      have hv : jsonFuel v ≤ f := by
        have h3 : membersFuel (JsonObj.cons k v JsonObj.nil) =
            1 + max (jsonFuel v) (membersFuel JsonObj.nil) := rfl
        omega
      have hsw1 : skipWs (printString k ++
            (':' :: (printValue v ++ (printMembersRest JsonObj.nil ++ ('}' :: rest))))) =
          '"' :: (escapeList k.data ++
            ('"' :: (':' :: (printValue v ++
              (printMembersRest JsonObj.nil ++ ('}' :: rest)))))) := by
        rw [show printString k ++
            (':' :: (printValue v ++ (printMembersRest JsonObj.nil ++ ('}' :: rest)))) =
            '"' :: (escapeList k.data ++
              ('"' :: (':' :: (printValue v ++
                (printMembersRest JsonObj.nil ++ ('}' :: rest))))))
          from by simp [printString]]
        exact skipWs_cons _ (by decide)
      simp only [parseMembers, hsw1]
      rw [parseStrBody_escapeList k.data
        (':' :: (printValue v ++ (printMembersRest JsonObj.nil ++ ('}' :: rest))))]
      dsimp only
      have hsw2 : skipWs (':' :: (printValue v ++
            (printMembersRest JsonObj.nil ++ ('}' :: rest)))) =
          ':' :: (printValue v ++ (printMembersRest JsonObj.nil ++ ('}' :: rest))) :=
        skipWs_cons _ (by decide)
      rw [hsw2]
      have hhead : ∀ c, (printMembersRest JsonObj.nil ++ ('}' :: rest)).head? = some c →
          isDigitChar c = false := by
        intro c hc
        simp [printMembersRest] at hc
        subst hc
        decide
      split
      · rename_i r2 heq
        rw [List.cons.injEq] at heq
        rw [← heq.2]
        rw [parse_print_value v f _ hv hhead]
        dsimp only
        have hsw3 : skipWs (printMembersRest JsonObj.nil ++ ('}' :: rest)) =
            '}' :: rest := by
          simp [printMembersRest]
          exact skipWs_cons _ (by decide)
        rw [hsw3]
        rfl
      · rename_i hn
        exact absurd rfl (hn (printValue v ++
          (printMembersRest JsonObj.nil ++ ('}' :: rest))))
  | k, v, JsonObj.cons k2 v2 ms2, f, rest, hfm => by
    have h1 : 1 ≤ f := le_trans (by simp [membersFuel]) hfm
    cases f with
    | zero => omega
    | succ f =>
      have hv : jsonFuel v ≤ f := by
        have h3 : membersFuel (JsonObj.cons k v (JsonObj.cons k2 v2 ms2)) =
            1 + max (jsonFuel v) (membersFuel (JsonObj.cons k2 v2 ms2)) := rfl
        omega
      have hsw1 : skipWs (printString k ++
            (':' :: (printValue v ++
              (printMembersRest (JsonObj.cons k2 v2 ms2) ++ ('}' :: rest))))) =
          '"' :: (escapeList k.data ++
            ('"' :: (':' :: (printValue v ++
              (printMembersRest (JsonObj.cons k2 v2 ms2) ++ ('}' :: rest)))))) := by
        rw [show printString k ++
            (':' :: (printValue v ++
              (printMembersRest (JsonObj.cons k2 v2 ms2) ++ ('}' :: rest)))) =
            '"' :: (escapeList k.data ++
              ('"' :: (':' :: (printValue v ++
                (printMembersRest (JsonObj.cons k2 v2 ms2) ++ ('}' :: rest))))))
          from by simp [printString]]
        exact skipWs_cons _ (by decide)
      simp only [parseMembers, hsw1]
      rw [parseStrBody_escapeList k.data
        (':' :: (printValue v ++
          (printMembersRest (JsonObj.cons k2 v2 ms2) ++ ('}' :: rest))))]
      dsimp only
      have hsw2 : skipWs (':' :: (printValue v ++
            (printMembersRest (JsonObj.cons k2 v2 ms2) ++ ('}' :: rest)))) =
          ':' :: (printValue v ++
            (printMembersRest (JsonObj.cons k2 v2 ms2) ++ ('}' :: rest))) :=
        skipWs_cons _ (by decide)
      rw [hsw2]
      have hhead : ∀ c, (printMembersRest (JsonObj.cons k2 v2 ms2) ++
          ('}' :: rest)).head? = some c → isDigitChar c = false := by
        intro c hc
        simp [printMembersRest, printString] at hc
        subst hc
        decide
      split
      · rename_i r2 heq
        rw [List.cons.injEq] at heq
        rw [← heq.2]
        rw [parse_print_value v f _ hv hhead]
        dsimp only
        have hsw3 : skipWs (printMembersRest (JsonObj.cons k2 v2 ms2) ++ ('}' :: rest)) =
            ',' :: (printString k2 ++
              (':' :: (printValue v2 ++ (printMembersRest ms2 ++ ('}' :: rest))))) := by
          rw [show printMembersRest (JsonObj.cons k2 v2 ms2) ++ ('}' :: rest) =
              ',' :: (printString k2 ++
                (':' :: (printValue v2 ++ (printMembersRest ms2 ++ ('}' :: rest)))))
            from by simp [printMembersRest]]
          exact skipWs_cons _ (by decide)
        rw [hsw3]
        have hfm2 : membersFuel (JsonObj.cons k2 v2 ms2) ≤ f := by
          have h3 : membersFuel (JsonObj.cons k v (JsonObj.cons k2 v2 ms2)) =
              1 + max (jsonFuel v) (membersFuel (JsonObj.cons k2 v2 ms2)) := rfl
          omega
        split
        · rename_i r4 heq2
          rw [List.cons.injEq] at heq2
          rw [← heq2.2]
          rw [parse_print_members k2 v2 ms2 f rest hfm2]
        · rename_i r4 heq2
          rw [List.cons.injEq] at heq2
          exact absurd heq2.1 (by decide)
        · rename_i hn1 hn2
          exact absurd rfl (hn1 (printString k2 ++
            (':' :: (printValue v2 ++ (printMembersRest ms2 ++ ('}' :: rest))))))
      · rename_i hn
        exact absurd rfl (hn (printValue v ++
          (printMembersRest (JsonObj.cons k2 v2 ms2) ++ ('}' :: rest))))
termination_by k v ms f rest hfm => sizeOf v + sizeOf ms
decreasing_by
  all_goals simp
  all_goals omega
end

mutual
/-- The fuel the parser entry point supplies — the input length plus one —
always covers a printed value. -/
theorem jsonFuel_le_print : ∀ j : Json, jsonFuel j ≤ (printValue j).length
  | Json.null => by simp [jsonFuel, printValue]
  | Json.bool true => by simp [jsonFuel, printValue]
  | Json.bool false => by simp [jsonFuel, printValue]
  | Json.num n => by
    have h : printValue (Json.num n) = intDigits n := rfl
    rw [h]
    have : intDigits n ≠ [] := by
      unfold intDigits
      split
      · simp
      · exact natDigits_ne_nil n.natAbs
    have : 1 ≤ (intDigits n).length := by
      cases he : intDigits n with
      | nil => exact absurd he this
      | cons a l => simp
    simpa [jsonFuel] using this
  | Json.str s => by simp [jsonFuel, printValue, printString]
  | Json.arr JsonList.nil => by simp [jsonFuel, elemsFuel, printValue]
  | Json.arr (JsonList.cons x xs) => by
    have h := elemsFuel_le_print x xs
    have hform : printValue (Json.arr (JsonList.cons x xs)) =
        '[' :: printValue x ++ printElemsRest xs ++ [']'] := rfl
    rw [hform]
    have hj : jsonFuel (Json.arr (JsonList.cons x xs)) =
        1 + elemsFuel (JsonList.cons x xs) := rfl
    rw [hj]
    simp only [List.length_append, List.length_cons, List.length_singleton]
    omega
  | Json.obj JsonObj.nil => by simp [jsonFuel, membersFuel, printValue]
  | Json.obj (JsonObj.cons k v ms) => by
    have h := membersFuel_le_print k v ms
    have hform : printValue (Json.obj (JsonObj.cons k v ms)) =
        '{' :: printString k ++ ':' :: printValue v ++ printMembersRest ms ++ ['}'] := rfl
    rw [hform]
    have hj : jsonFuel (Json.obj (JsonObj.cons k v ms)) =
        1 + membersFuel (JsonObj.cons k v ms) := rfl
    rw [hj]
    simp only [List.length_append, List.length_cons, List.length_singleton]
    omega
termination_by j => sizeOf j
decreasing_by all_goals simp <;> omega

theorem elemsFuel_le_print : ∀ (x : Json) (xs : JsonList),
    elemsFuel (JsonList.cons x xs) ≤ 1 + (printValue x).length + (printElemsRest xs).length
  | x, JsonList.nil => by
    have h := jsonFuel_le_print x
    have he : elemsFuel (JsonList.cons x JsonList.nil) =
        1 + max (jsonFuel x) (elemsFuel JsonList.nil) := rfl
    rw [he]
    simp only [elemsFuel]
    omega
  | x, JsonList.cons y ys => by
    have h1 := jsonFuel_le_print x
    have h2 := elemsFuel_le_print y ys
    have he : elemsFuel (JsonList.cons x (JsonList.cons y ys)) =
        1 + max (jsonFuel x) (elemsFuel (JsonList.cons y ys)) := rfl
    rw [he]
    have hp : printElemsRest (JsonList.cons y ys) =
        ',' :: printValue y ++ printElemsRest ys := rfl
    rw [hp]
    simp only [List.length_append, List.length_cons]
    omega
termination_by x xs => sizeOf x + sizeOf xs
decreasing_by all_goals simp <;> omega

theorem membersFuel_le_print : ∀ (k : String) (v : Json) (ms : JsonObj),
    membersFuel (JsonObj.cons k v ms) ≤ 1 + (printValue v).length + (printMembersRest ms).length
  | k, v, JsonObj.nil => by
    have h := jsonFuel_le_print v
    have he : membersFuel (JsonObj.cons k v JsonObj.nil) =
        1 + max (jsonFuel v) (membersFuel JsonObj.nil) := rfl
    rw [he]
    simp only [membersFuel]
    omega
  | k, v, JsonObj.cons k2 v2 ms2 => by
    have h1 := jsonFuel_le_print v
    have h2 := membersFuel_le_print k2 v2 ms2
    have he : membersFuel (JsonObj.cons k v (JsonObj.cons k2 v2 ms2)) =
        1 + max (jsonFuel v) (membersFuel (JsonObj.cons k2 v2 ms2)) := rfl
    rw [he]
    have hp : printMembersRest (JsonObj.cons k2 v2 ms2) =
        ',' :: printString k2 ++ ':' :: printValue v2 ++ printMembersRest ms2 := rfl
    rw [hp]
    simp only [List.length_append, List.length_cons]
    omega
termination_by k v ms => sizeOf v + sizeOf ms
decreasing_by all_goals simp <;> omega
end

/-- JSON.parse inverts JSON.stringify on every value. -/
theorem jsonParseText_print (j : Json) : jsonParseText (printValue j) = some j := by
  unfold jsonParseText
  have h := parse_print_value j ((printValue j).length + 1) []
    (le_trans (jsonFuel_le_print j) (by omega)) (by simp)
  rw [List.append_nil] at h
  rw [h]
  simp [skipWs]

/-- The full codec pipeline — stringify, UTF-8 encode, base64 encode, then
base64 decode, UTF-8 decode, parse — is the identity on every JSON value. -/
theorem decodeJson_encodeJson (j : Json) :
    decodePaymentPayload (encodeJsonValue j) = some j := by
  unfold decodePaymentPayload encodeJsonValue
  rw [show (String.mk (b64Encode (utf8Encode (printValue j)))).data =
      b64Encode (utf8Encode (printValue j)) from rfl]
  rw [b64_roundtrip (utf8Encode (printValue j)) (utf8Encode_lt256 _), utf8_roundtrip]
  exact jsonParseText_print j

/-- Claim C9: codec round-trip — decoding the encoding of any syntactically
valid PaymentPayload (every field present; amounts and timestamps as decimal
strings of any length) returns exactly that payload: the decoded JSON value
is the payload's image, and the cast back to the structure recovers `p`. -/
theorem decode_encode_payment_payload (p : PaymentPayload) :
    decodePaymentPayload (encodePaymentPayload p) = some (paymentPayloadJson p) ∧
    payloadOfJson (paymentPayloadJson p) = some p :=
  ⟨decodeJson_encodeJson (paymentPayloadJson p), rfl⟩

set_option maxRecDepth 4000 in
/-- Counterexample to claim C4 as stated: the base64 encoding of the JSON
text of the empty object decodes successfully to a value with none of the
required PaymentPayload fields — a partially-populated (indeed empty)
structure, not a failure. -/
theorem decode_accepts_incomplete_payload :
    decodePaymentPayload "e30=" = some (Json.obj JsonObj.nil) ∧
    payloadOfJson (Json.obj JsonObj.nil) = none := by
  constructor
  · decide
  · rfl

/-- Claim C4 as amended: decodePaymentPayload fails only when the
base64-decoded text is not valid JSON; when the text is valid JSON it
returns the parsed value with no required-field validation, succeeding on
the encoding of every JSON value — including ones missing every
PaymentPayload field. -/
theorem decode_no_field_validation (j : Json) :
    decodePaymentPayload (encodeJsonValue j) = some j :=
  decodeJson_encodeJson j

/-- Claim C3 as amended: on a settlement that returns success, the middleware
returns the resource operation's output (its status and body) with the
X-PAYMENT-RESPONSE header set — but the token it attaches is the re-encoded
request payment payload (encodePaymentPayload of the decoded payment), which
decodes to the payment payload's JSON, not to the SettleResult's settlement
metadata. -/
theorem middleware_success_attaches_reencoded_payload
    (options : MiddlewareOptions) (env : MwEnv) (url path payment : String)
    (p : PaymentPayload) (pat : String) (routeConfig : RouteConfig)
    (v : VerifyResponse) (st : SettleResponse)
    (hfind : options.routes.find? (fun e => routePatternMatches e.1 path) =
      some (pat, routeConfig))
    (hdp : (decodePaymentPayload payment).bind payloadOfJson = some p)
    (hver : env.verify p (buildPaymentRequirements options routeConfig url) = some v)
    (hvalid : v.isValid = true)
    (hstatus : env.next.status < 400)
    (hset : env.settle p (buildPaymentRequirements options routeConfig url) =
      Except.ok st)
    (hsuc : st.success = true) :
    confidentialPaymentMiddleware options env url path (some payment) =
      (MwResult.respond ⟨env.next.status, MwBody.fromNext env.next.body,
         setHeader env.next.headers "X-PAYMENT-RESPONSE" (encodePaymentPayload p)⟩,
       [MwEvent.decoded p, MwEvent.verified p v, MwEvent.calledNext,
        MwEvent.settled p]) ∧
    decodePaymentPayload (encodePaymentPayload p) = some (paymentPayloadJson p) := by
  have hstatus' : ¬ env.next.status ≥ 400 := by omega
  refine ⟨?_, decodeJson_encodeJson (paymentPayloadJson p)⟩
  simp [confidentialPaymentMiddleware, hfind, hdp, hver, hvalid, hstatus', hset, hsuc]

set_option maxRecDepth 10000 in
/-- Witness for the amended C3 at a concrete run: route "/weather", an
accepting verifier, a 200 downstream response, and a successful settlement;
the middleware responds with the downstream output plus the header carrying
the re-encoded payload, whose decoding is the payload's JSON. -/
theorem middleware_success_attaches_reencoded_payload_witness :
    (decodePaymentPayload (encodePaymentPayload
        ⟨1, "e", "n", ⟨"s", ⟨"f", "t", "h", "i", "0", "9", "n"⟩⟩⟩)).bind payloadOfJson =
      some ⟨1, "e", "n", ⟨"s", ⟨"f", "t", "h", "i", "0", "9", "n"⟩⟩⟩ ∧
    (confidentialPaymentMiddleware
        ⟨"0xpay", "0xasset", [("/weather", ⟨"1000", "sepolia", none⟩)]⟩
        ⟨fun _ _ => some ⟨true, none, "0xp"⟩,
         fun _ _ => Except.ok ⟨true, "0xtx", "sepolia", "0xp", none, some "1000"⟩,
         ⟨200, "ok", []⟩⟩
        "http://h/weather" "/weather"
        (some (encodePaymentPayload
          ⟨1, "e", "n", ⟨"s", ⟨"f", "t", "h", "i", "0", "9", "n"⟩⟩⟩)) =
      (MwResult.respond ⟨200, MwBody.fromNext "ok",
         setHeader [] "X-PAYMENT-RESPONSE" (encodePaymentPayload
           ⟨1, "e", "n", ⟨"s", ⟨"f", "t", "h", "i", "0", "9", "n"⟩⟩⟩)⟩,
       [MwEvent.decoded ⟨1, "e", "n", ⟨"s", ⟨"f", "t", "h", "i", "0", "9", "n"⟩⟩⟩,
        MwEvent.verified ⟨1, "e", "n", ⟨"s", ⟨"f", "t", "h", "i", "0", "9", "n"⟩⟩⟩
          ⟨true, none, "0xp"⟩,
        MwEvent.calledNext,
        MwEvent.settled ⟨1, "e", "n", ⟨"s", ⟨"f", "t", "h", "i", "0", "9", "n"⟩⟩⟩]) ∧
     decodePaymentPayload (encodePaymentPayload
         ⟨1, "e", "n", ⟨"s", ⟨"f", "t", "h", "i", "0", "9", "n"⟩⟩⟩) =
       some (paymentPayloadJson ⟨1, "e", "n", ⟨"s", ⟨"f", "t", "h", "i", "0", "9", "n"⟩⟩⟩)) := by
  have h : (decodePaymentPayload (encodePaymentPayload
      (⟨1, "e", "n", ⟨"s", ⟨"f", "t", "h", "i", "0", "9", "n"⟩⟩⟩ : PaymentPayload))).bind
        payloadOfJson =
      some ⟨1, "e", "n", ⟨"s", ⟨"f", "t", "h", "i", "0", "9", "n"⟩⟩⟩ := by decide
  exact ⟨h, middleware_success_attaches_reencoded_payload
    ⟨"0xpay", "0xasset", [("/weather", ⟨"1000", "sepolia", none⟩)]⟩
    ⟨fun _ _ => some ⟨true, none, "0xp"⟩,
     fun _ _ => Except.ok ⟨true, "0xtx", "sepolia", "0xp", none, some "1000"⟩,
     ⟨200, "ok", []⟩⟩
    "http://h/weather" "/weather"
    (encodePaymentPayload ⟨1, "e", "n", ⟨"s", ⟨"f", "t", "h", "i", "0", "9", "n"⟩⟩⟩)
    ⟨1, "e", "n", ⟨"s", ⟨"f", "t", "h", "i", "0", "9", "n"⟩⟩⟩
    "/weather" ⟨"1000", "sepolia", none⟩ ⟨true, none, "0xp"⟩
    ⟨true, "0xtx", "sepolia", "0xp", none, some "1000"⟩
    rfl h rfl rfl (by decide) rfl rfl⟩

set_option maxRecDepth 10000 in
/-- Counterexample to claim C3 as stated: at a concrete successful run the
X-PAYMENT-RESPONSE header holds an encoding of the request's payment payload;
it decodes to the payload's JSON and not to the settlement receipt of that
request's SettleResult. -/
theorem settlement_header_not_receipt :
    (confidentialPaymentMiddleware
        ⟨"0xr", "0xc", [("/data", ⟨"5", "sepolia", none⟩)]⟩
        ⟨fun _ _ => some ⟨true, none, "0xq"⟩,
         fun _ _ => Except.ok ⟨true, "0xhash", "sepolia", "0xq", none, some "5"⟩,
         ⟨200, "data-body", []⟩⟩
        "http://h/data" "/data"
        (some (encodePaymentPayload
          ⟨1, "e", "n", ⟨"s", ⟨"f", "t", "h", "i", "0", "9", "n"⟩⟩⟩))).1 =
      MwResult.respond ⟨200, MwBody.fromNext "data-body",
        [("X-PAYMENT-RESPONSE", encodePaymentPayload
          ⟨1, "e", "n", ⟨"s", ⟨"f", "t", "h", "i", "0", "9", "n"⟩⟩⟩)]⟩ ∧
    decodePaymentPayload (encodePaymentPayload
        ⟨1, "e", "n", ⟨"s", ⟨"f", "t", "h", "i", "0", "9", "n"⟩⟩⟩) ≠
      some (specSettlementReceiptJson ⟨true, "0xhash", "sepolia", "0xq", none, some "5"⟩) := by
  constructor
  · decide
  · decide

set_option maxRecDepth 10000 in
/-- Witness for C1: a concrete request carrying the encoding of a concrete
payload, with an accepting verifier and a 200 downstream response, produces
a settlement event, and the theorem recovers the full trace with its valid
verification. -/
theorem middleware_settles_only_after_valid_verify_witness :
    MwEvent.settled ⟨1, "e", "n", ⟨"s", ⟨"f", "t", "h", "i", "0", "9", "n"⟩⟩⟩ ∈
      (confidentialPaymentMiddleware
        ⟨"0xpay", "0xasset", [("/weather", ⟨"1000", "sepolia", none⟩)]⟩
        ⟨fun _ _ => some ⟨true, none, "0xp"⟩,
         fun _ _ => Except.ok ⟨true, "0xtx", "sepolia", "0xp", none, some "1000"⟩,
         ⟨200, "ok", []⟩⟩
        "http://h/weather" "/weather"
        (some (encodePaymentPayload
          ⟨1, "e", "n", ⟨"s", ⟨"f", "t", "h", "i", "0", "9", "n"⟩⟩⟩))).2 ∧
    ((200 : Int) < 400 ∧
     ∃ v : VerifyResponse, ∃ routeConfig : RouteConfig,
       some ⟨true, none, "0xp"⟩ = some v ∧
       v.isValid = true ∧
       (confidentialPaymentMiddleware
          ⟨"0xpay", "0xasset", [("/weather", ⟨"1000", "sepolia", none⟩)]⟩
          ⟨fun _ _ => some ⟨true, none, "0xp"⟩,
           fun _ _ => Except.ok ⟨true, "0xtx", "sepolia", "0xp", none, some "1000"⟩,
           ⟨200, "ok", []⟩⟩
          "http://h/weather" "/weather"
          (some (encodePaymentPayload
            ⟨1, "e", "n", ⟨"s", ⟨"f", "t", "h", "i", "0", "9", "n"⟩⟩⟩))).2 =
         [MwEvent.decoded ⟨1, "e", "n", ⟨"s", ⟨"f", "t", "h", "i", "0", "9", "n"⟩⟩⟩,
          MwEvent.verified ⟨1, "e", "n", ⟨"s", ⟨"f", "t", "h", "i", "0", "9", "n"⟩⟩⟩ v,
          MwEvent.calledNext,
          MwEvent.settled ⟨1, "e", "n", ⟨"s", ⟨"f", "t", "h", "i", "0", "9", "n"⟩⟩⟩]) := by
  have h : MwEvent.settled
      (⟨1, "e", "n", ⟨"s", ⟨"f", "t", "h", "i", "0", "9", "n"⟩⟩⟩ : PaymentPayload) ∈
      (confidentialPaymentMiddleware
        ⟨"0xpay", "0xasset", [("/weather", ⟨"1000", "sepolia", none⟩)]⟩
        ⟨fun _ _ => some ⟨true, none, "0xp"⟩,
         fun _ _ => Except.ok ⟨true, "0xtx", "sepolia", "0xp", none, some "1000"⟩,
         ⟨200, "ok", []⟩⟩
        "http://h/weather" "/weather"
        (some (encodePaymentPayload
          ⟨1, "e", "n", ⟨"s", ⟨"f", "t", "h", "i", "0", "9", "n"⟩⟩⟩))).2 := by decide
  exact ⟨h, middleware_settles_only_after_valid_verify
    ⟨"0xpay", "0xasset", [("/weather", ⟨"1000", "sepolia", none⟩)]⟩
    ⟨fun _ _ => some ⟨true, none, "0xp"⟩,
     fun _ _ => Except.ok ⟨true, "0xtx", "sepolia", "0xp", none, some "1000"⟩,
     ⟨200, "ok", []⟩⟩
    "http://h/weather" "/weather"
    (some (encodePaymentPayload ⟨1, "e", "n", ⟨"s", ⟨"f", "t", "h", "i", "0", "9", "n"⟩⟩⟩))
    ⟨1, "e", "n", ⟨"s", ⟨"f", "t", "h", "i", "0", "9", "n"⟩⟩⟩
    h⟩

end X402
